import Mathlib

/-!
# Verification of the kernel-bindings conformance-test runner

This file gives a shallow embedding, in Lean 4, of the core of the
`kernel-bindings-tests` repository — the dependency tracker
(`runner/dependency_tracker.go`), the response validator
(`runner/runner.go`), the handler process controller
(`runner/handler.go`) and the JSON normalization used for result
comparison (`runner/types.go`) — together with theorems checking the
repository's specification against that embedding.

Conventions of the embedding:
* Go slices and maps become Lean lists and association lists.  A Go map
  has no iteration order; wherever the Go code iterates a map, the code
  under verification is insensitive to that order (proved where it
  matters), and the association list fixes one order.
* Go `panic` is modelled by the `Except.error` constructor of a
  dedicated payload type, clearly named; it is *not* an ordinary error
  return value in Go (the runner never calls `recover`).
* `encoding/json` is modelled by an executable parser/serializer over a
  `Json` value type.  The embedding restricts JSON numbers to integer
  numerals (the repository's tests and protocol only use integers,
  booleans, strings, objects and arrays) and string escapes to the
  common ones; inputs outside this subset make the parser return
  `none`, and all theorems are conditioned on parse success.
-/

/-! ## Sorted duplicate-free index lists

`mergeSortedUnique` is used by the dependency tracker to merge
dependency chains.  Its Go source file is not part of the sources at
hand (only its callers are).  Modelled from the spec: "chains are
always ascending, duplicate-free index lists; merging multiple
candidate chains is a standard sorted-union, not
insertion-order-preserving".
-/

/-- Insert a value into an ascending duplicate-free list, keeping it
ascending and duplicate-free. -/
def insertUnique (x : Nat) : List Nat → List Nat
  | [] => [x]
  | y :: ys =>
    if x < y then x :: y :: ys
    else if x = y then y :: ys
    else y :: insertUnique x ys

/-- Sort a list ascending and drop duplicates. -/
def sortUnique (l : List Nat) : List Nat :=
  l.foldr insertUnique []

/-- Modelled from the spec: `mergeSortedUnique` (absent from the
sources; the spec calls it "a standard sorted-union" producing
"ascending, duplicate-free index lists").  It merges any number of
chains into one ascending duplicate-free list. -/
def mergeSortedUnique (chains : List (List Nat)) : List Nat :=
  sortUnique chains.flatten

/-! ## Association lists (Go maps) -/

/-- Lookup in an association list; models reading a Go map. -/
def assocFind {κ ν : Type} [DecidableEq κ] (k : κ) : List (κ × ν) → Option ν
  | [] => none
  | (k', v) :: rest => if k = k' then some v else assocFind k rest

/-- Insert-or-overwrite in an association list; models Go map
assignment `m[k] = v`. -/
def assocUpsert {κ ν : Type} [DecidableEq κ] (k : κ) (v : ν) :
    List (κ × ν) → List (κ × ν)
  | [] => [(k, v)]
  | (k', v') :: rest =>
    if k = k' then (k, v) :: rest else (k', v') :: assocUpsert k v rest

/-- Add an element to a list-as-set if it is not already present;
models Go map-as-set assignment `m[k] = true`. -/
def setInsert (k : String) (s : List String) : List String :=
  if k ∈ s then s else k :: s

/-! ## JSON values

`encoding/json` is modelled by an executable parser and serializer over
the `Json` value type.  Objects carry their fields as an association
list; a duplicate key in the input text overwrites the earlier binding
(as Go's `Unmarshal` into a map does), so parsed objects have
duplicate-free keys. -/

inductive Json where
  | null
  | bool (b : Bool)
  | num (n : Int)
  | str (s : String)
  | arr (elems : List Json)
  | obj (fields : List (String × Json))
  deriving Repr

/-- The four JSON whitespace characters. -/
def jsonWs (c : Char) : Bool :=
  c = ' ' || c = '\t' || c = '\n' || c = '\r'

/-- Drop leading JSON whitespace. -/
def skipWs : List Char → List Char
  | [] => []
  | c :: cs => if jsonWs c then skipWs cs else c :: cs

/-- Parse the body of a JSON string literal (after the opening quote),
returning the decoded characters and the input after the closing
quote.  The embedding supports the escapes used in the repository;
raw control characters are rejected as in Go. -/
def parseStringChars : List Char → Option (List Char × List Char)
  | [] => none
  | c :: cs =>
    if c = '"' then some ([], cs)
    else if c = '\\' then
      match cs with
      | 'n' :: rest => (parseStringChars rest).map (fun p => ('\n' :: p.1, p.2))
      | 't' :: rest => (parseStringChars rest).map (fun p => ('\t' :: p.1, p.2))
      | 'r' :: rest => (parseStringChars rest).map (fun p => ('\r' :: p.1, p.2))
      | '"' :: rest => (parseStringChars rest).map (fun p => ('"' :: p.1, p.2))
      | '\\' :: rest => (parseStringChars rest).map (fun p => ('\\' :: p.1, p.2))
      | '/' :: rest => (parseStringChars rest).map (fun p => ('/' :: p.1, p.2))
      | _ => none
    else if c.toNat < 32 then none
    else (parseStringChars cs).map (fun p => (c :: p.1, p.2))

/-- Split off a maximal run of decimal digits. -/
def spanDigits : List Char → List Char × List Char
  | [] => ([], [])
  | c :: cs =>
    if c.isDigit then
      let p := spanDigits cs
      (c :: p.1, p.2)
    else ([], c :: cs)

/-- Decimal digits to a natural number. -/
def digitsToNat (ds : List Char) : Nat :=
  ds.foldl (fun a c => a * 10 + (c.toNat - 48)) 0

/-- Does the rest of the input continue a number with a fraction or
exponent?  Those numerals are outside the integer subset this
embedding supports, so the parser rejects them. -/
def numCont : List Char → Bool
  | [] => false
  | c :: _ => c = '.' || c = 'e' || c = 'E'

/-- Parse an integer numeral (no leading zeros, no `-0`, no
fraction/exponent — the integer subset of JSON numbers). -/
def parseNumber (cs : List Char) : Option (Json × List Char) :=
  match cs with
  | '-' :: rest =>
    let p := spanDigits rest
    if p.1 = [] then none
    else if p.1.head? = some '0' then none
    else if numCont p.2 then none
    else some (.num (-(digitsToNat p.1 : Int)), p.2)
  | _ =>
    let p := spanDigits cs
    if p.1 = [] then none
    else if p.1.head? = some '0' && p.1.length != 1 then none
    else if numCont p.2 then none
    else some (.num (digitsToNat p.1 : Int), p.2)

mutual

/-- Parse one JSON value (fuel-indexed for termination; `parseJson`
supplies ample fuel). -/
def parseVal : Nat → List Char → Option (Json × List Char)
  | 0, _ => none
  | fuel + 1, cs =>
    match skipWs cs with
    | [] => none
    | c :: rest =>
      if c = 'n' then
        match rest with
        | 'u' :: 'l' :: 'l' :: r => some (.null, r)
        | _ => none
      else if c = 't' then
        match rest with
        | 'r' :: 'u' :: 'e' :: r => some (.bool true, r)
        | _ => none
      else if c = 'f' then
        match rest with
        | 'a' :: 'l' :: 's' :: 'e' :: r => some (.bool false, r)
        | _ => none
      else if c = '"' then
        (parseStringChars rest).map (fun p => (.str (String.mk p.1), p.2))
      else if c = '[' then
        match skipWs rest with
        | ']' :: r => some (.arr [], r)
        | r => parseArrBody fuel r []
      else if c = '{' then
        match skipWs rest with
        | '}' :: r => some (.obj [], r)
        | r => parseObjBody fuel r []
      else parseNumber (c :: rest)

/-- Parse the elements of a non-empty JSON array. -/
def parseArrBody : Nat → List Char → List Json → Option (Json × List Char)
  | 0, _, _ => none
  | fuel + 1, cs, acc =>
    match parseVal fuel cs with
    | none => none
    | some (v, rest) =>
      match skipWs rest with
      | ',' :: r => parseArrBody fuel r (acc ++ [v])
      | ']' :: r => some (.arr (acc ++ [v]), r)
      | _ => none

/-- Parse the members of a non-empty JSON object.  A repeated key
overwrites the earlier binding, as Go's `Unmarshal` into a map does. -/
def parseObjBody : Nat → List Char → List (String × Json) →
    Option (Json × List Char)
  | 0, _, _ => none
  | fuel + 1, cs, acc =>
    match skipWs cs with
    | '"' :: rest =>
      match parseStringChars rest with
      | none => none
      | some (kcs, rest1) =>
        match skipWs rest1 with
        | ':' :: rest2 =>
          match parseVal fuel rest2 with
          | none => none
          | some (v, rest3) =>
            match skipWs rest3 with
            | ',' :: r => parseObjBody fuel r (assocUpsert (String.mk kcs) v acc)
            | '}' :: r => some (.obj (assocUpsert (String.mk kcs) v acc), r)
            | _ => none
        | _ => none
    | _ => none

end

/-- Parse a whole JSON text: one value, with only whitespace around it
(Go's `Unmarshal` rejects trailing data). -/
def parseJson (s : String) : Option Json :=
  match parseVal (3 * s.length + 9) s.data with
  | some (v, rest) => if skipWs rest = [] then some v else none
  | none => none

/-- Lowercase hex digit, as Go's JSON encoder emits in escapes. -/
def hexDigit (n : Nat) : Char :=
  if n < 10 then Char.ofNat (48 + n) else Char.ofNat (87 + n)

/-- Escape one character the way Go's `json.Marshal` does (including
the HTML-safe escapes for `<`, `>` and `&`). -/
def escapeChar (c : Char) : List Char :=
  if c = '"' then ['\\', '"']
  else if c = '\\' then ['\\', '\\']
  else if c = '\n' then ['\\', 'n']
  else if c = '\t' then ['\\', 't']
  else if c = '\r' then ['\\', 'r']
  else if c = '<' || c = '>' || c = '&' || c.toNat < 32 then
    ['\\', 'u', '0', '0', hexDigit (c.toNat / 16), hexDigit (c.toNat % 16)]
  else [c]

/-- Serialize a string as a JSON string literal. -/
def quoteString (s : String) : String :=
  String.mk ('"' :: s.data.flatMap escapeChar ++ ['"'])

mutual

/-- Serialize a JSON value compactly, as Go's `json.Marshal` does.
Object fields are emitted in their list order; `canon` below sorts
them first, modelling that `Marshal` of a Go map sorts its keys. -/
def serializeJson : Json → String
  | .null => "null"
  | .bool b => cond b "true" "false"
  | .num n => toString n
  | .str s => quoteString s
  | .arr xs => "[" ++ serializeList xs ++ "]"
  | .obj fs => "\x7b" ++ serializeFields fs ++ "\x7d"

/-- Comma-separated serialization of array elements. -/
def serializeList : List Json → String
  | [] => ""
  | [x] => serializeJson x
  | x :: y :: xs => serializeJson x ++ "," ++ serializeList (y :: xs)

/-- Comma-separated serialization of object members. -/
def serializeFields : List (String × Json) → String
  | [] => ""
  | [(k, v)] => quoteString k ++ ":" ++ serializeJson v
  | (k, v) :: f :: fs =>
    quoteString k ++ ":" ++ serializeJson v ++ "," ++ serializeFields (f :: fs)

end

/-- Strict lexicographic order on character lists by code point. -/
def charListLt : List Char → List Char → Bool
  | _, [] => false
  | [], _ :: _ => true
  | a :: as, b :: bs =>
    if a.toNat < b.toNat then true
    else if b.toNat < a.toNat then false
    else charListLt as bs

/-- The string order Go's `sort.Strings` uses: byte-lexicographic,
which on UTF-8 strings agrees with code-point lexicographic order. -/
def strLt (a b : String) : Bool :=
  charListLt a.data b.data

/-- Insert a field into a key-sorted field list (insertion step of the
key sort `json.Marshal` applies to map keys). -/
def insertField (p : String × Json) : List (String × Json) → List (String × Json)
  | [] => [p]
  | q :: qs => if strLt p.1 q.1 then p :: q :: qs else q :: insertField p qs

/-- Sort object fields by key, ascending (Go sorts map keys with
`sort.Strings`). -/
def sortFields (l : List (String × Json)) : List (String × Json) :=
  l.foldr insertField []

mutual

/-- Canonicalize a JSON value: recursively sort every object's fields
by key.  This models the information a Go `map[string]interface{}`
retains (no field order) combined with `Marshal`'s sorted-key output. -/
def canon : Json → Json
  | .null => .null
  | .bool b => .bool b
  | .num n => .num n
  | .str s => .str s
  | .arr xs => .arr (canonList xs)
  | .obj fs => .obj (sortFields (canonFields fs))

/-- `canon` on each element of an array. -/
def canonList : List Json → List Json
  | [] => []
  | x :: xs => canon x :: canonList xs

/-- `canon` on each field value of an object. -/
def canonFields : List (String × Json) → List (String × Json)
  | [] => []
  | (k, v) :: fs => (k, canon v) :: canonFields fs

end

/-- `Normalize` on a raw JSON text (`types.go`): parse it and
re-marshal it canonically — `json.Unmarshal` into `interface{}`
followed by `json.Marshal`.  Returns `none` where Go returns an
error. -/
def normalizeText (s : String) : Option String :=
  (parseJson s).map (fun v => serializeJson (canon v))

/-- Well-formedness of values produced by the parser: every object has
duplicate-free keys. -/
inductive JsonWF : Json → Prop
  | null : JsonWF .null
  | bool (b : Bool) : JsonWF (.bool b)
  | num (n : Int) : JsonWF (.num n)
  | str (s : String) : JsonWF (.str s)
  | arr {xs : List Json} : (∀ x ∈ xs, JsonWF x) → JsonWF (.arr xs)
  | obj {fs : List (String × Json)} : (fs.map Prod.fst).Nodup →
      (∀ p ∈ fs, JsonWF p.2) → JsonWF (.obj fs)

mutual

/-- `KeyReorder v w`: `w` is `v` with object fields reordered (at any
depth) and values otherwise unchanged — the value-level content of "a
reformatting of the text that preserves its JSON value". -/
inductive KeyReorder : Json → Json → Prop
  | null : KeyReorder .null .null
  | bool (b : Bool) : KeyReorder (.bool b) (.bool b)
  | num (n : Int) : KeyReorder (.num n) (.num n)
  | str (s : String) : KeyReorder (.str s) (.str s)
  | arr {xs ys : List Json} : KeyReorderList xs ys →
      KeyReorder (.arr xs) (.arr ys)
  | obj {l1 lmid l2 : List (String × Json)} : KeyReorderFields l1 lmid →
      lmid.Perm l2 → KeyReorder (.obj l1) (.obj l2)

/-- Pointwise `KeyReorder` on array elements. -/
inductive KeyReorderList : List Json → List Json → Prop
  | nil : KeyReorderList [] []
  | cons {x y : Json} {xs ys : List Json} : KeyReorder x y →
      KeyReorderList xs ys → KeyReorderList (x :: xs) (y :: ys)

/-- Pointwise `KeyReorder` on field values (same keys, same order). -/
inductive KeyReorderFields :
    List (String × Json) → List (String × Json) → Prop
  | nil : KeyReorderFields [] []
  | cons {k : String} {v w : Json} {fs gs : List (String × Json)} :
      KeyReorder v w → KeyReorderFields fs gs →
      KeyReorderFields ((k, v) :: fs) ((k, w) :: gs)

end

/-! ## Results and responses (`runner/types.go`) -/

/-- `Result` is Go's `json.RawMessage` carried in a response: `none`
models a nil/absent raw message, `some s` the raw JSON text. -/
def Result := Option String

/-- `Result.IsNullOrOmitted` (`types.go`): nil or the literal text
`null`. -/
def Result.IsNullOrOmitted : Result → Bool
  | none => true
  | some s => s = "null"

/-- `Result.Normalize` (`types.go`): `json.Unmarshal` into
`interface{}` followed by `json.Marshal`; `none` models the Go
error return. -/
def Result.Normalize : Result → Option String
  | none => none
  | some s => normalizeText s

/-- Raw text of a result, for error messages (`string(resp.Result)`). -/
def Result.rawText : Result → String
  | none => ""
  | some s => s

structure ErrorCode where
  type : String
  member : String
  deriving Repr, DecidableEq

/-- `Error` of `runner/types.go`: an error object whose `code` may be
absent. -/
structure RespError where
  code : Option ErrorCode
  deriving Repr, DecidableEq

/-- `Response` of the final `runner/types.go`: `result` and an optional
`error`. -/
structure Response where
  result : Result
  error : Option RespError

/-- `Request` of the final `runner/types.go` (the tracker generation):
`params` is the raw JSON text of the `params` object (`none` = absent),
`ref` names the registry slot the handler must populate (`""` =
absent). -/
structure Request where
  id : String
  method : String
  params : Option String
  ref : String

/-- `TestCase` of the final `runner/types.go`. -/
structure TestCase where
  description : String
  request : Request
  expectedResponse : Response

/-- Default test case for out-of-range indexing (all verified uses keep
indices in range). -/
def defaultTestCase : TestCase :=
  ⟨"", ⟨"", "", none, ""⟩, ⟨none, none⟩⟩

/-- `tests[i]` on a Go slice, for in-range `i`. -/
def testAt (tests : List TestCase) (i : Nat) : TestCase :=
  tests.getD i defaultTestCase

/-! ## Dependency tracker (`runner/dependency_tracker.go`) -/

/-- The fixed "stateful creator" method set. -/
def statefulCreatorMethods (m : String) : Bool :=
  m = "btck_context_create" || m = "btck_chainstate_manager_create"

/-- The fixed "state-mutating" method set. -/
def stateMutatingMethods (m : String) : Bool :=
  m = "btck_chainstate_manager_process_block"

/-- The tracker state: Go maps become association lists, the
map-as-set `statefulRefs` a plain list. -/
structure DependencyTracker where
  refCreators : List (String × Nat)
  statefulRefs : List String
  depChains : List (Nat × List Nat)
  stateDependencies : List Nat

/-- `NewDependencyTracker`. -/
def NewDependencyTracker : DependencyTracker := ⟨[], [], [], []⟩

/-- The Go check `len(str) > 1 && str[0] == '$'` recognizing a
reference token (on valid UTF-8, byte length `> 1` together with a
`$` first byte is the same as character length `≥ 2` with a `$` first
character). -/
def isRefToken (s : String) : Bool :=
  1 < s.data.length && s.data.head? == some '$'

/-- Modelled from the spec: `ParseRefObject` is absent from the
sources (only its caller `extractRefsFromParams` is present).  The
spec requires both reference encodings: "either a bare `$`-prefixed
string, or, in the normalized form, an object `{ "ref": "$name" }`
— both representations must be supported by the extraction routine,
as the protocol evolved between them". -/
def ParseRefObject (v : Json) : Option String :=
  match v with
  | .str s => if isRefToken s then some s else none
  | .obj fields =>
    match assocFind "ref" fields with
    | some (.str s) => if isRefToken s then some s else none
    | _ => none
  | _ => none

/-- `extractRefsFromParams` (final generation): unmarshal `params`
into a map of raw values and collect every first-level value that
`ParseRefObject` recognizes.  A non-object or unparsable `params`
yields no refs, as in Go. -/
def extractRefsFromParams (params : Option String) : List String :=
  match params with
  | none => []
  | some ptxt =>
    match parseJson ptxt with
    | some (.obj fields) => fields.filterMap (fun p => ParseRefObject p.2)
    | _ => []

/-- The references a test's params consume. -/
def refsOfTest (t : TestCase) : List String :=
  extractRefsFromParams t.request.params

/-- Models the Go
`panic(fmt.Sprintf("test %d (%s) uses undefined reference %s - no prior test created this ref", ...))`
in `BuildDependenciesForTest`: a runtime abort carrying the offending
test index, request id and undefined reference.  The runner never
calls `recover`, so this panic terminates the run; it is not an
ordinary error return value (the Go function returns nothing). -/
structure UndefinedRefPanic where
  testIndex : Nat
  requestId : String
  ref : String
  deriving Repr, DecidableEq

/-- The loop of `BuildDependenciesForTest`: for each consumed ref, in
order, add `[creatorIdx]` and the creator's stored chain; panic at the
first ref with no registered creator. -/
def collectParentChains (dt : DependencyTracker) (testIndex : Nat) (reqId : String) :
    List String → Except UndefinedRefPanic (List (List Nat))
  | [] => .ok []
  | r :: rest =>
    match assocFind r dt.refCreators with
    | some creatorIdx =>
      let here := [creatorIdx] ::
        (match assocFind creatorIdx dt.depChains with
         | some chain => [chain]
         | none => [])
      (collectParentChains dt testIndex reqId rest).map (fun chains => here ++ chains)
    | none => .error ⟨testIndex, reqId, r⟩

/-- `BuildDependenciesForTest`: build the test's dependency chain from
the refs it uses and store it under its index. -/
def BuildDependenciesForTest (dt : DependencyTracker) (testIndex : Nat)
    (test : TestCase) : Except UndefinedRefPanic DependencyTracker :=
  (collectParentChains dt testIndex test.request.id (refsOfTest test)).map
    (fun parentChains =>
      { dt with depChains :=
          assocUpsert testIndex (mergeSortedUnique parentChains) dt.depChains })

/-- `OnTestExecuted`: register the test's declared ref as created by
it, mark it stateful for stateful-creator methods, and extend the
state-dependency set for state-mutating methods. -/
def OnTestExecuted (dt : DependencyTracker) (testIndex : Nat)
    (test : TestCase) : DependencyTracker :=
  let dt1 :=
    if test.request.ref ≠ "" then
      let dtA := { dt with
        refCreators := assocUpsert test.request.ref testIndex dt.refCreators }
      if statefulCreatorMethods test.request.method then
        { dtA with statefulRefs := setInsert test.request.ref dtA.statefulRefs }
      else dtA
    else dt
  if stateMutatingMethods test.request.method then
    let mutatorChain := ((assocFind testIndex dt1.depChains).getD []) ++ [testIndex]
    { dt1 with stateDependencies :=
        mergeSortedUnique [dt1.stateDependencies, mutatorChain] }
  else dt1

/-- `testUsesStatefulRefs`: does the test's dependency chain, or the
test itself, consume any ref marked stateful? -/
def testUsesStatefulRefs (dt : DependencyTracker) (testIndex : Nat)
    (allTests : List TestCase) : Bool :=
  (((assocFind testIndex dt.depChains).getD []).any fun depIdx =>
    (refsOfTest (testAt allTests depIdx)).any fun r => dt.statefulRefs.contains r)
  || (refsOfTest (testAt allTests testIndex)).any fun r => dt.statefulRefs.contains r

/-- `BuildRequestChain`: the stored chain, merged with the cumulative
state-dependency set when the test touches stateful refs. -/
def BuildRequestChain (dt : DependencyTracker) (testIndex : Nat)
    (allTests : List TestCase) : List Nat :=
  let refDepChain := (assocFind testIndex dt.depChains).getD []
  if testUsesStatefulRefs dt testIndex allTests then
    mergeSortedUnique [refDepChain, dt.stateDependencies]
  else refDepChain

/-- One tracker step per test, as the runner drives it:
`BuildDependenciesForTest` then `OnTestExecuted`. -/
def processTest (dt : DependencyTracker) (i : Nat) (t : TestCase) :
    Except UndefinedRefPanic DependencyTracker :=
  (BuildDependenciesForTest dt i t).map (fun dt' => OnTestExecuted dt' i t)

/-- Run the tracker over the tests starting at index `i`. -/
def runTrackerFrom (dt : DependencyTracker) (i : Nat) :
    List TestCase → Except UndefinedRefPanic DependencyTracker
  | [] => .ok dt
  | t :: ts =>
    match processTest dt i t with
    | .ok dt' => runTrackerFrom dt' (i + 1) ts
    | .error e => .error e

/-- Run the tracker over a whole suite in order. -/
def runTracker (tests : List TestCase) : Except UndefinedRefPanic DependencyTracker :=
  runTrackerFrom NewDependencyTracker 0 tests

/-! ### Specification-side definitions for the dependency claims -/

/-- The test index whose created reference `r` is visible to test `i`:
the last test before `i` whose declared `ref` equals `r` (a later
creation overwrites an earlier one in `refCreators`). -/
def creatorAt (tests : List TestCase) (i : Nat) (r : String) : Option Nat :=
  ((List.range i).filter
    (fun j => ((testAt tests j).request.ref == r) && (r != ""))).getLast?

/-- `j` is a direct dependency of `i`: some reference consumed by
`i`'s params was (most recently) created by test `j`. -/
def DirectDep (tests : List TestCase) (j i : Nat) : Prop :=
  ∃ r ∈ refsOfTest (testAt tests i), creatorAt tests i r = some j

/-- Transitive closure of reference-creation edges: the earlier tests
whose created references are directly or indirectly consumed by test
`i`'s params. -/
inductive Reaches (tests : List TestCase) : Nat → Nat → Prop
  | direct {j i : Nat} : DirectDep tests j i → Reaches tests j i
  | step {j k i : Nat} : DirectDep tests k i → Reaches tests j k →
      Reaches tests j i

/-- The reference `r` was created in this suite by one of the fixed
stateful-creator methods. -/
def CreatedByStatefulCreator (tests : List TestCase) (r : String) : Prop :=
  ∃ j < tests.length, (testAt tests j).request.ref = r ∧ r ≠ "" ∧
    statefulCreatorMethods (testAt tests j).request.method = true

/-- Invariant of the tracker state after processing tests `0..k-1`:
`refCreators` is the last-creator map, every processed test has a
stored chain that is sorted and characterizes exactly the transitive
closure `Reaches`, and `statefulRefs` holds exactly the refs created
so far by stateful-creator methods. -/
def TrackerInv (tests : List TestCase) (k : Nat) (dt : DependencyTracker) : Prop :=
  (∀ r, assocFind r dt.refCreators = creatorAt tests k r) ∧
  (∀ i, i < k → ∃ c, assocFind i dt.depChains = some c ∧
    c.Sorted (· < ·) ∧ (∀ j ∈ c, j < i) ∧ (∀ j, j ∈ c ↔ Reaches tests j i)) ∧
  (∀ r, r ∈ dt.statefulRefs ↔ ∃ j < k, (testAt tests j).request.ref = r ∧
    r ≠ "" ∧ statefulCreatorMethods (testAt tests j).request.method = true)

/-! ## Response validation (`runner/runner.go`, lines 699–784)

This validator generation reads `resp.ID`, `test.Expected.Error` and
`test.Expected.Result`; its `TestCase`/`Response` declarations are not
among the sources at hand, so their fields are taken from the
validator's own uses.  Error values are the `fmt.Errorf` message
strings. -/

namespace Val

structure Response where
  id : String
  result : Result
  error : Option RespError

structure TestExpectation where
  error : Option RespError
  result : Result

structure TestCase where
  id : String
  method : String
  params : Option String
  expected : TestExpectation

/-- `validateResponseForError`: the response must carry an error, its
result must be null/omitted, and an expected error code must match
exactly. -/
def validateResponseForError (test : TestCase) (resp : Response) :
    Except String Unit :=
  match test.expected.error with
  | none => .error "panic: validateResponseForError expects non-nil error"
  | some expErr =>
    match resp.error with
    | none =>
      match expErr.code with
      | some c => .error ("expected error " ++ c.type ++ "." ++ c.member ++
          ", but got no error")
      | none => .error "expected error, but got no error"
    | some respErr =>
      if !resp.result.IsNullOrOmitted then
        .error ("expected result to be null or omitted when error is present, got: "
          ++ resp.result.rawText)
      else
        match expErr.code with
        | none => .ok ()
        | some c =>
          match respErr.code with
          | none => .error ("expected error code " ++ c.type ++ "." ++ c.member ++
              ", but got error with no code")
          | some rc =>
            if rc.type ≠ c.type then
              .error ("expected error type " ++ c.type ++ ", got " ++ rc.type)
            else if rc.member ≠ c.member then
              .error ("expected error member " ++ c.member ++ ", got " ++ rc.member)
            else .ok ()

/-- `validateResponseForSuccess`: the response must carry no error,
and the result must match the expectation (both normalized) or be
null/omitted when none is expected. -/
def validateResponseForSuccess (test : TestCase) (resp : Response) :
    Except String Unit :=
  match test.expected.error with
  | some _ => .error "panic: validateResponseForSuccess expects nil error"
  | none =>
    match resp.error with
    | some respErr =>
      match respErr.code with
      | some rc => .error ("expected success with no error, but got error: "
          ++ rc.type ++ "." ++ rc.member)
      | none => .error "expected success with no error, but got error"
    | none =>
      if test.expected.result.IsNullOrOmitted then
        if !resp.result.IsNullOrOmitted then
          .error ("expected null or omitted result, got: " ++ resp.result.rawText)
        else .ok ()
      else
        match test.expected.result.Normalize with
        | none => .error "failed to normalize expected result"
        | some expectedNorm =>
          match resp.result.Normalize with
          | none => .error "failed to normalize actual result"
          | some actualNorm =>
            if expectedNorm ≠ actualNorm then
              .error ("result mismatch: expected " ++ expectedNorm ++ ", got "
                ++ actualNorm)
            else .ok ()

/-- `validateResponse`: reject an id mismatch first, then dispatch on
whether an error is expected. -/
def validateResponse (test : TestCase) (resp : Response) : Except String Unit :=
  if resp.id ≠ test.id then
    .error ("response ID mismatch: expected " ++ test.id ++ ", got " ++ resp.id)
  else
    match test.expected.error with
    | some _ => validateResponseForError test resp
    | none => validateResponseForSuccess test resp

end Val

/-! ## Handler process controller (`runner/handler.go`)

`ReadLine` races a blocking scanner read against a timer and reconciles
the loser by killing the process.  Real time and goroutines have no
shallow embedding; the embedding represents the race by the event that
wins it, and checks the decision logic, the kill, and the stderr
diagnostics against the source. -/

/-- `HandlerConfig` of `runner/handler.go`: executable path, argument
list and environment overlay.  It carries no per-call timeout. -/
structure HandlerConfig where
  path : String
  args : List String
  env : List String

/-- The per-call response timeout the spawn configuration carries:
`HandlerConfig` has no such field, so there is none to extract,
whatever the configuration. -/
def perCallTimeoutOf (_cfg : HandlerConfig) : Option Nat := none

/-- The wait bound `ReadLine` actually uses: the literal
`10 * time.Second` in `runner/handler.go`, independent of any
configuration. -/
def readLineTimeoutSeconds : Nat := 10

/-- The event that wins `ReadLine`'s race. -/
inductive ReadEvent where
  | line (l : String)
  | scanErr (msg : String)
  | closed
  | timeout

/-- `ReadLine`'s error outcomes: a scanner error, or the sentinel
errors `ErrHandlerClosed`/`ErrHandlerTimeout`, optionally wrapped with
captured stderr output. -/
inductive ReadLineError where
  | ioError (msg : String)
  | handlerClosed (stderr : Option String)
  | handlerTimeout (stderr : Option String)
  deriving Repr, DecidableEq

/-- Attach drained stderr output when non-empty. -/
def attachStderr (stderr : String) : Option String :=
  if stderr = "" then none else some stderr

/-- `ReadLine` as a function of the winning event and the (drained)
stderr buffer; the boolean records whether the process was
force-killed. -/
def ReadLine (ev : ReadEvent) (stderr : String) :
    Except ReadLineError String × Bool :=
  match ev with
  | .line l => (.ok l, false)
  | .scanErr m => (.error (.ioError m), false)
  | .closed => (.error (.handlerClosed (attachStderr stderr)), true)
  | .timeout => (.error (.handlerTimeout (attachStderr stderr)), true)

/-! ## Stateful-suite short-circuiting

Modelled from the spec: the final-generation `RunTestSuite` (the one
taking a context and consulting `TestSuite.Stateful`) is absent from
the sources — only the `Stateful` field declaration with its contract
("If any test fails in a stateful suite, all subsequent tests are
automatically skipped and considered as failed") and its callers are
present.  The spec: "A suite marked `stateful` transitions to a
terminal short-circuited sub-state the instant one test fails; all
following tests in that suite are recorded as `Skipped` with a fixed
diagnostic message, without contacting the handler."  Contacting the
handler and validating one response is abstracted as `exec`. -/

/-- Modelled from the spec: the fixed skip-diagnostic message. -/
def skippedMessage : String :=
  "skipped: a previous test in this stateful suite failed"

/-- Modelled from the spec: run tests `i, i+1, ...` (`rem` of them).
Returns each test's `(passed, message)` record and the indices for
which the handler was contacted. -/
def runSuiteFrom (exec : Nat → Bool) (stateful : Bool) :
    Nat → Nat → Bool → List (Bool × String) × List Nat
  | _, 0, _ => ([], [])
  | i, rem + 1, failed =>
    if stateful && failed then
      let rest := runSuiteFrom exec stateful (i + 1) rem failed
      ((false, skippedMessage) :: rest.1, rest.2)
    else
      let ok := exec i
      let rest := runSuiteFrom exec stateful (i + 1) rem (failed || !ok)
      ((ok, if ok then "test passed" else "test failed") :: rest.1, i :: rest.2)

/-- Modelled from the spec: run a suite of `n` tests. -/
def runSuite (exec : Nat → Bool) (stateful : Bool) (n : Nat) :
    List (Bool × String) × List Nat :=
  runSuiteFrom exec stateful 0 n false

/-! ## Concrete suites from the repository's tests

Scenario A is `TestDependencyTracker_BuildDependencyChains`, scenario C
is `TestDependencyTracker_StateMutations`/`_BuildRequestChain`
(`runner/dependency_tracker_test.go`), with the same requests, params
and expected responses. -/

/-- Scenario A: create_a → create_b(uses $ref_a) → create_c →
use_multiple(uses $ref_b and $ref_c). -/
def scenarioATests : List TestCase := [
  ⟨"", ⟨"test0", "create_a", some "\x7b\x7d", "$ref_a"⟩,
    ⟨some "\x7b\"ref\": \"$ref_a\"\x7d", none⟩⟩,
  ⟨"", ⟨"test1", "create_b", some "\x7b\"input\": \x7b\"ref\": \"$ref_a\"\x7d\x7d", "$ref_b"⟩,
    ⟨some "\x7b\"ref\": \"$ref_b\"\x7d", none⟩⟩,
  ⟨"", ⟨"test2", "create_c", some "\x7b\x7d", "$ref_c"⟩,
    ⟨some "\x7b\"ref\": \"$ref_c\"\x7d", none⟩⟩,
  ⟨"", ⟨"test3", "use_multiple",
    some "\x7b\"first\": \x7b\"ref\": \"$ref_b\"\x7d, \"second\": \x7b\"ref\": \"$ref_c\"\x7d\x7d", ""⟩,
    ⟨none, none⟩⟩]

/-- The tracker state after running scenario A. -/
def scenarioATracker : DependencyTracker :=
  match runTracker scenarioATests with
  | .ok dt => dt
  | .error _ => NewDependencyTracker

/-- Scenario C: context/chainstate-manager/block creation, a
`btck_chainstate_manager_process_block` at index 3, a further block at
index 4 and a `btck_chainstate_manager_get_active_chain` at index 5. -/
def scenarioCTests : List TestCase := [
  ⟨"", ⟨"test0", "btck_context_create", some "\x7b\x7d", "$context"⟩,
    ⟨some "\x7b\"ref\": \"$context\"\x7d", none⟩⟩,
  ⟨"", ⟨"test1", "btck_chainstate_manager_create",
    some "\x7b\"context\": \x7b\"ref\": \"$context\"\x7d\x7d", "$chainman"⟩,
    ⟨some "\x7b\"ref\": \"$chainman\"\x7d", none⟩⟩,
  ⟨"", ⟨"test2", "btck_block_create", some "\x7b\"raw_block\": \"deadbeef\"\x7d", "$block"⟩,
    ⟨some "\x7b\"ref\": \"$block\"\x7d", none⟩⟩,
  ⟨"", ⟨"test3", "btck_chainstate_manager_process_block",
    some "\x7b\"chainstate_manager\": \x7b\"ref\": \"$chainman\"\x7d, \"block\": \x7b\"ref\": \"$block\"\x7d\x7d",
    ""⟩, ⟨none, none⟩⟩,
  ⟨"", ⟨"test4", "btck_block_create", some "\x7b\"raw_block\": \"cafebabe\"\x7d", "$block2"⟩,
    ⟨some "\x7b\"ref\": \"$block2\"\x7d", none⟩⟩,
  ⟨"", ⟨"test5", "btck_chainstate_manager_get_active_chain",
    some "\x7b\"chainstate_manager\": \x7b\"ref\": \"$chainman\"\x7d\x7d", "$chain"⟩,
    ⟨some "\x7b\"ref\": \"$chain\"\x7d", none⟩⟩]

/-- The tracker state after running scenario C. -/
def scenarioCTracker : DependencyTracker :=
  match runTracker scenarioCTests with
  | .ok dt => dt
  | .error _ => NewDependencyTracker

/-- A one-test suite whose only test consumes a reference no test
created. -/
def undefinedRefTests : List TestCase :=
  [⟨"", ⟨"test0", "use_thing", some "\x7b\"input\": \x7b\"ref\": \"$missing\"\x7d\x7d", ""⟩,
    ⟨none, none⟩⟩]

/-- "p's key is at most q's key": fields in emitted order. -/
def FieldsLe (p q : String × Json) : Prop := strLt q.1 p.1 = false

theorem mem_insertUnique {a x : Nat} {l : List Nat} :
    a ∈ insertUnique x l ↔ a = x ∨ a ∈ l := by
  induction l with
  | nil => simp [insertUnique]
  | cons y ys ih =>
    simp only [insertUnique]
    split
    · simp [List.mem_cons]
    · split
      · rename_i h1 h2
        subst h2
        simp [List.mem_cons]
      · simp only [List.mem_cons, ih]
        tauto

theorem sorted_insertUnique {x : Nat} {l : List Nat}
    (h : l.Sorted (· < ·)) : (insertUnique x l).Sorted (· < ·) := by
  induction l with
  | nil => simp [insertUnique]
  | cons y ys ih =>
    rw [List.sorted_cons] at h
    obtain ⟨hy, hys⟩ := h
    simp only [insertUnique]
    split
    · rename_i h1
      rw [List.sorted_cons]
      refine ⟨?_, List.sorted_cons.2 ⟨hy, hys⟩⟩
      intro b hb
      rcases List.mem_cons.1 hb with rfl | hb
      · exact h1
      · exact h1.trans (hy b hb)
    · split
      · rename_i h1 h2
        subst h2
        exact List.sorted_cons.2 ⟨hy, hys⟩
      · rename_i h1 h2
        rw [List.sorted_cons]
        refine ⟨?_, ih hys⟩
        intro b hb
        rcases mem_insertUnique.1 hb with rfl | hb
        · omega
        · exact hy b hb

theorem sorted_sortUnique (l : List Nat) : (sortUnique l).Sorted (· < ·) := by
  induction l with
  | nil => simp [sortUnique]
  | cons x xs ih => exact sorted_insertUnique ih

theorem mem_sortUnique {a : Nat} {l : List Nat} :
    a ∈ sortUnique l ↔ a ∈ l := by
  induction l with
  | nil => simp [sortUnique]
  | cons x xs ih =>
    simp only [sortUnique, List.foldr_cons, mem_insertUnique, List.mem_cons]
    rw [sortUnique] at ih
    rw [ih]

theorem nodup_sortUnique (l : List Nat) : (sortUnique l).Nodup :=
  (sorted_sortUnique l).nodup

theorem sorted_mergeSortedUnique (chains : List (List Nat)) :
    (mergeSortedUnique chains).Sorted (· < ·) :=
  sorted_sortUnique _

theorem nodup_mergeSortedUnique (chains : List (List Nat)) :
    (mergeSortedUnique chains).Nodup :=
  nodup_sortUnique _

theorem mem_mergeSortedUnique {a : Nat} {chains : List (List Nat)} :
    a ∈ mergeSortedUnique chains ↔ ∃ c ∈ chains, a ∈ c := by
  simp [mergeSortedUnique, mem_sortUnique, List.mem_flatten]

theorem assocFind_upsert {κ ν : Type} [DecidableEq κ] (k k' : κ) (v : ν)
    (l : List (κ × ν)) :
    assocFind k (assocUpsert k' v l) =
      if k = k' then some v else assocFind k l := by
  induction l with
  | nil => by_cases h : k = k' <;> simp [assocUpsert, assocFind, h]
  | cons p rest ih =>
    obtain ⟨pk, pv⟩ := p
    simp only [assocUpsert]
    split
    · rename_i h1
      subst h1
      by_cases h2 : k = k' <;> simp [assocFind, h2]
    · rename_i h1
      by_cases h2 : k = pk
      · subst h2
        have hne : ¬k = k' := fun h => h1 h.symm
        simp [assocFind, hne]
      · simp [assocFind, h2, ih]

/-! ## JSON lemmas -/

theorem assocUpsert_mem {κ ν : Type} [DecidableEq κ] {k : κ} {v : ν}
    {l : List (κ × ν)} {p : κ × ν} (h : p ∈ assocUpsert k v l) :
    p = (k, v) ∨ p ∈ l := by
  induction l with
  | nil => simpa [assocUpsert] using h
  | cons q rest ih =>
    obtain ⟨qk, qv⟩ := q
    simp only [assocUpsert] at h
    split at h
    · rcases List.mem_cons.1 h with rfl | h
      · exact .inl rfl
      · exact .inr (List.mem_cons.2 (.inr h))
    · rcases List.mem_cons.1 h with rfl | h
      · exact .inr (List.mem_cons.2 (.inl rfl))
      · rcases ih h with h' | h'
        · exact .inl h'
        · exact .inr (List.mem_cons.2 (.inr h'))

theorem assocUpsert_keys_subset {κ ν : Type} [DecidableEq κ] {k x : κ} {v : ν}
    {l : List (κ × ν)} (h : x ∈ (assocUpsert k v l).map Prod.fst) :
    x = k ∨ x ∈ l.map Prod.fst := by
  rcases List.mem_map.1 h with ⟨p, hp, rfl⟩
  rcases assocUpsert_mem hp with rfl | hp
  · exact .inl rfl
  · exact .inr (List.mem_map.2 ⟨p, hp, rfl⟩)

theorem assocUpsert_keys_nodup {κ ν : Type} [DecidableEq κ] {k : κ} {v : ν}
    {l : List (κ × ν)} (h : (l.map Prod.fst).Nodup) :
    ((assocUpsert k v l).map Prod.fst).Nodup := by
  induction l with
  | nil => simp [assocUpsert]
  | cons q rest ih =>
    obtain ⟨qk, qv⟩ := q
    simp only [List.map_cons, List.nodup_cons] at h
    obtain ⟨hq, hrest⟩ := h
    simp only [assocUpsert]
    split
    · rename_i heq
      subst heq
      simp only [List.map_cons, List.nodup_cons]
      exact ⟨hq, hrest⟩
    · rename_i hne
      simp only [List.map_cons, List.nodup_cons]
      refine ⟨?_, ih hrest⟩
      intro hmem
      rcases assocUpsert_keys_subset hmem with rfl | hmem
      · exact hne rfl
      · exact hq hmem

theorem parseNumber_wf {cs : List Char} {v : Json} {rest : List Char}
    (h : parseNumber cs = some (v, rest)) : JsonWF v := by
  simp only [parseNumber] at h
  split at h
  · split at h
    · exact absurd h (by simp)
    · split at h
      · exact absurd h (by simp)
      · split at h
        · exact absurd h (by simp)
        · obtain ⟨h1, h2⟩ := Prod.mk.injEq .. ▸ Option.some.injEq .. ▸ h
          exact h1 ▸ JsonWF.num _
  · split at h
    · exact absurd h (by simp)
    · split at h
      · exact absurd h (by simp)
      · split at h
        · exact absurd h (by simp)
        · obtain ⟨h1, h2⟩ := Prod.mk.injEq .. ▸ Option.some.injEq .. ▸ h
          exact h1 ▸ JsonWF.num _
set_option maxHeartbeats 1000000 in
theorem parser_wf : ∀ fuel : Nat,
    (∀ cs v rest, parseVal fuel cs = some (v, rest) → JsonWF v) ∧
    (∀ cs acc v rest, (∀ x ∈ acc, JsonWF x) →
      parseArrBody fuel cs acc = some (v, rest) → JsonWF v) ∧
    (∀ cs acc v rest, (acc.map Prod.fst).Nodup → (∀ p ∈ acc, JsonWF p.2) →
      parseObjBody fuel cs acc = some (v, rest) → JsonWF v) := by
  intro fuel
  induction fuel with
  | zero =>
    refine ⟨?_, ?_, ?_⟩
    · intro cs v rest h; exact absurd h (by simp [parseVal])
    · intro cs acc v rest _ h; exact absurd h (by simp [parseArrBody])
    · intro cs acc v rest _ _ h; exact absurd h (by simp [parseObjBody])
  | succ fuel ih =>
    obtain ⟨ihV, ihA, ihO⟩ := ih
    refine ⟨?_, ?_, ?_⟩
    · intro cs v rest h
      simp only [parseVal, Option.map] at h
      repeat' split at h
      all_goals try exact Option.noConfusion h
      all_goals try exact parseNumber_wf h
      all_goals try exact ihA _ [] _ _ (fun x hx => absurd hx (List.not_mem_nil x)) h
      all_goals try exact ihO _ [] _ _ (List.nodup_nil) (fun p hp => absurd hp (List.not_mem_nil p)) h
      all_goals simp only [Option.some.injEq, Prod.mk.injEq] at h
      all_goals obtain ⟨rfl, rfl⟩ := h
      all_goals first
        | exact JsonWF.null
        | exact JsonWF.bool _
        | exact JsonWF.str _
        | exact JsonWF.arr (fun x hx => absurd hx (List.not_mem_nil x))
        | exact JsonWF.obj List.nodup_nil (fun p hp => absurd hp (List.not_mem_nil p))
    · intro cs acc v rest hacc h
      simp only [parseArrBody] at h
      split at h
      · exact Option.noConfusion h
      · rename_i v0 rest0 heqV
        have hwf0 : JsonWF v0 := ihV _ _ _ heqV
        have hext : ∀ x ∈ acc ++ [v0], JsonWF x := by
          intro x hx
          rcases List.mem_append.1 hx with hx | hx
          · exact hacc x hx
          · rcases List.mem_singleton.1 hx with rfl
            exact hwf0
        split at h
        · exact ihA _ _ _ _ hext h
        · simp only [Option.some.injEq, Prod.mk.injEq] at h
          obtain ⟨rfl, rfl⟩ := h
          exact JsonWF.arr hext
        · exact Option.noConfusion h
    · intro cs acc v rest hnd hacc h
      simp only [parseObjBody] at h
      repeat' split at h
      all_goals try exact Option.noConfusion h
      all_goals try
        (refine ihO _ _ _ _ (assocUpsert_keys_nodup hnd) (fun p hp => ?_) h
         rcases assocUpsert_mem hp with rfl | hp2
         · apply ihV
           assumption
         · exact hacc p hp2)
      all_goals simp only [Option.some.injEq, Prod.mk.injEq] at h
      all_goals first
        | obtain ⟨rfl, rfl⟩ := h
      all_goals
        (refine JsonWF.obj (assocUpsert_keys_nodup hnd) (fun p hp => ?_)
         rcases assocUpsert_mem hp with rfl | hp2
         · apply ihV
           assumption
         · exact hacc p hp2)


theorem parseJson_wf {s : String} {v : Json} (h : parseJson s = some v) : JsonWF v := by
  unfold parseJson at h
  split at h
  · rename_i v' rest' heq
    split at h
    · exact Option.some.inj h ▸ (parser_wf _).1 _ _ _ heq
    · exact Option.noConfusion h
  · exact Option.noConfusion h

theorem char_toNat_inj {a b : Char} (h : a.toNat = b.toNat) : a = b := by
  apply Char.ext
  exact UInt32.toNat.inj h

theorem charListLt_irrefl : ∀ l : List Char, charListLt l l = false := by
  intro l
  induction l with
  | nil => rfl
  | cons c cs ih => simp [charListLt, ih]

theorem charListLt_trans : ∀ a b c : List Char, charListLt a b = true →
    charListLt b c = true → charListLt a c = true := by
  intro a
  induction a with
  | nil =>
    intro b c hab hbc
    cases c with
    | nil =>
      cases b with
      | nil => simpa [charListLt] using hab
      | cons y ys => simpa [charListLt] using hbc
    | cons z zs => rfl
  | cons x xs ih =>
    intro b c hab hbc
    cases b with
    | nil => simpa [charListLt] using hab
    | cons y ys =>
      cases c with
      | nil => simpa [charListLt] using hbc
      | cons z zs =>
        simp only [charListLt] at hab hbc ⊢
        split_ifs at hab hbc ⊢ with h1 h2 h3 h4 h5 h6 <;>
          first
            | rfl
            | omega
            | exact ih ys zs hab hbc
            | simp_all

theorem charListLt_asymm {a b : List Char} (h : charListLt a b = true) :
    charListLt b a = false := by
  by_contra hc
  have hba : charListLt b a = true := by
    cases hcb : charListLt b a
    · exact absurd hcb hc
    · rfl
  have := charListLt_trans a b a h hba
  rw [charListLt_irrefl] at this
  exact Bool.noConfusion this

theorem charListLt_conn : ∀ a b : List Char, charListLt a b = false →
    charListLt b a = false → a = b := by
  intro a
  induction a with
  | nil =>
    intro b h1 h2
    cases b with
    | nil => rfl
    | cons y ys => simp [charListLt] at h1
  | cons x xs ih =>
    intro b h1 h2
    cases b with
    | nil => simp [charListLt] at h2
    | cons y ys =>
      simp only [charListLt] at h1 h2
      split_ifs at h1 h2 with hxy hyx <;>
        first
          | omega
          | exact Bool.noConfusion h1
          | exact Bool.noConfusion h2
          | (have hx : x = y := char_toNat_inj (by omega)
             subst hx
             rw [ih ys h1 h2])

theorem strLt_asymm {a b : String} (h : strLt a b = true) : strLt b a = false :=
  charListLt_asymm h

theorem strLt_conn {a b : String} (h1 : strLt a b = false)
    (h2 : strLt b a = false) : a = b := by
  cases a with
  | mk da =>
    cases b with
    | mk db =>
      have : da = db := charListLt_conn da db h1 h2
      rw [this]

theorem strLt_trans {a b c : String} (h1 : strLt a b = true)
    (h2 : strLt b c = true) : strLt a c = true :=
  charListLt_trans _ _ _ h1 h2

theorem mem_insertField {x p : String × Json} {l : List (String × Json)} :
    x ∈ insertField p l ↔ x = p ∨ x ∈ l := by
  induction l with
  | nil => simp [insertField]
  | cons q qs ih =>
    simp only [insertField]
    split
    · simp [List.mem_cons]
    · simp only [List.mem_cons, ih]
      tauto

theorem insertField_perm (p : String × Json) (l : List (String × Json)) :
    (insertField p l).Perm (p :: l) := by
  induction l with
  | nil => simp [insertField]
  | cons q qs ih =>
    simp only [insertField]
    split
    · exact List.Perm.refl _
    · exact (List.Perm.cons q ih).trans (List.Perm.swap p q qs)

theorem sortFields_perm (l : List (String × Json)) : (sortFields l).Perm l := by
  induction l with
  | nil => simp [sortFields]
  | cons p ps ih =>
    simp only [sortFields, List.foldr_cons]
    exact (insertField_perm p _).trans (List.Perm.cons p ih)

theorem pairwise_insertField {p : String × Json} {l : List (String × Json)}
    (h : l.Pairwise FieldsLe) : (insertField p l).Pairwise FieldsLe := by
  induction l with
  | nil => simp [insertField, List.pairwise_singleton]
  | cons q qs ih =>
    rw [List.pairwise_cons] at h
    obtain ⟨hq, hqs⟩ := h
    simp only [insertField]
    split
    · rename_i hlt
      rw [List.pairwise_cons]
      refine ⟨?_, List.pairwise_cons.2 ⟨hq, hqs⟩⟩
      intro x hx
      rcases List.mem_cons.1 hx with rfl | hx
      · exact strLt_asymm hlt
      · have hqx : FieldsLe q x := hq x hx
        unfold FieldsLe at hqx ⊢
        cases hxp : strLt x.1 p.1
        · rfl
        · exact absurd (strLt_trans hxp hlt) (by simp [hqx])
    · rename_i hnlt
      rw [List.pairwise_cons]
      refine ⟨?_, ih hqs⟩
      intro x hx
      rcases mem_insertField.1 hx with rfl | hx
      · unfold FieldsLe
        cases hc : strLt x.1 q.1
        · rfl
        · exact absurd hc hnlt
      · exact hq x hx

theorem sortFields_pairwise (l : List (String × Json)) :
    (sortFields l).Pairwise FieldsLe := by
  induction l with
  | nil => simp [sortFields]
  | cons p ps ih => exact pairwise_insertField ih

theorem sorted_perm_nodupKeys_eq : ∀ {la lb : List (String × Json)},
    la.Pairwise FieldsLe → lb.Pairwise FieldsLe → la.Perm lb →
    (la.map Prod.fst).Nodup → la = lb := by
  intro la
  induction la with
  | nil =>
    intro lb _ _ hperm _
    exact (hperm.nil_eq).symm ▸ rfl
  | cons a la' ih =>
    intro lb hsa hsb hperm hnd
    cases lb with
    | nil => exact absurd hperm.symm.nil_eq (by simp)
    | cons b lb' =>
      have hab : a = b := by
        have hainb : a ∈ b :: lb' := hperm.mem_iff.1 (List.mem_cons_self a la')
        have hbina : b ∈ a :: la' := hperm.symm.mem_iff.1 (List.mem_cons_self b lb')
        rcases List.mem_cons.1 hainb with h1 | h1
        · exact h1
        · rcases List.mem_cons.1 hbina with h2 | h2
          · exact h2.symm
          · -- a ∈ lb', b ∈ la': keys equal by antisymmetry, contradict nodup
            have hle1 : FieldsLe b a := (List.pairwise_cons.1 hsb).1 a h1
            have hle2 : FieldsLe a b := (List.pairwise_cons.1 hsa).1 b h2
            have hkey : a.1 = b.1 := strLt_conn hle1 hle2
            exfalso
            rw [List.map_cons, List.nodup_cons] at hnd
            exact hnd.1 (hkey ▸ List.mem_map.2 ⟨b, h2, rfl⟩)
      subst hab
      have hperm' := hperm.cons_inv
      have := ih (List.pairwise_cons.1 hsa).2 (List.pairwise_cons.1 hsb).2 hperm'
        (by rw [List.map_cons, List.nodup_cons] at hnd; exact hnd.2)
      rw [this]

theorem sortFields_eq_of_perm {l1 l2 : List (String × Json)}
    (hperm : l1.Perm l2) (hnd : (l1.map Prod.fst).Nodup) :
    sortFields l1 = sortFields l2 := by
  refine sorted_perm_nodupKeys_eq (sortFields_pairwise l1) (sortFields_pairwise l2)
    ((sortFields_perm l1).trans (hperm.trans (sortFields_perm l2).symm)) ?_
  have : ((sortFields l1).map Prod.fst).Perm (l1.map Prod.fst) :=
    (sortFields_perm l1).map Prod.fst
  exact this.nodup_iff.2 hnd

theorem canonFields_eq_map (l : List (String × Json)) :
    canonFields l = l.map (fun p => (p.1, canon p.2)) := by
  induction l with
  | nil => simp [canonFields]
  | cons p ps ih =>
    obtain ⟨k, v⟩ := p
    simp [canonFields, ih]

theorem canonFields_keys (l : List (String × Json)) :
    (canonFields l).map Prod.fst = l.map Prod.fst := by
  rw [canonFields_eq_map, List.map_map]
  rfl


theorem canon_eq_of_keyReorder : ∀ (n : Nat) (v w : Json), sizeOf v ≤ n →
    KeyReorder v w → JsonWF v → canon v = canon w := by
  intro n
  induction n with
  | zero =>
    intro v w hs
    exfalso
    cases v <;> simp at hs
  | succ n ih =>
    intro v w hs hkr hwf
    cases hkr with
    | null => rfl
    | bool b => rfl
    | num m => rfl
    | str s => rfl
    | arr hlist =>
      rename_i xs ys
      have hsz : ∀ x ∈ xs, sizeOf x ≤ n := by
        intro x hx
        have h1 : sizeOf x < sizeOf xs := List.sizeOf_lt_of_mem hx
        have h2 : sizeOf (Json.arr xs) = 1 + sizeOf xs := by simp
        omega
      have hwfx : ∀ x ∈ xs, JsonWF x := by
        cases hwf with
        | arr h => exact h
      have hgen : ∀ (as bs : List Json), (∀ x ∈ as, sizeOf x ≤ n) →
          (∀ x ∈ as, JsonWF x) → KeyReorderList as bs →
          canonList as = canonList bs := by
        intro as
        induction as with
        | nil =>
          intro bs _ _ h
          cases h
          rfl
        | cons x as' ihl =>
          intro bs hsz' hwf' h
          cases h with
          | cons hx hxs =>
            rename_i y bs'
            simp only [canonList]
            have e1 : canon x = canon y :=
              ih x y (hsz' x (List.mem_cons_self x as')) hx
                (hwf' x (List.mem_cons_self x as'))
            have e2 : canonList as' = canonList bs' :=
              ihl bs' (fun z hz => hsz' z (List.mem_cons_of_mem x hz))
                (fun z hz => hwf' z (List.mem_cons_of_mem x hz)) hxs
            rw [e1, e2]
      simp only [canon]
      rw [hgen xs ys hsz hwfx hlist]
    | obj hfields hperm =>
      rename_i l1 lmid l2
      have hsz : ∀ p ∈ l1, sizeOf p.2 ≤ n := by
        intro p hp
        have h1 : sizeOf p < sizeOf l1 := List.sizeOf_lt_of_mem hp
        have h2 : sizeOf (Json.obj l1) = 1 + sizeOf l1 := by simp
        have h3 : sizeOf p.2 < sizeOf p := by
          obtain ⟨a, b⟩ := p
          simp
        omega
      have hnd : (l1.map Prod.fst).Nodup := by
        cases hwf with
        | obj h _ => exact h
      have hwfp : ∀ p ∈ l1, JsonWF p.2 := by
        cases hwf with
        | obj _ h => exact h
      have hgen : ∀ (fs gs : List (String × Json)), (∀ p ∈ fs, sizeOf p.2 ≤ n) →
          (∀ p ∈ fs, JsonWF p.2) → KeyReorderFields fs gs →
          canonFields fs = canonFields gs ∧ gs.map Prod.fst = fs.map Prod.fst := by
        intro fs
        induction fs with
        | nil =>
          intro gs _ _ h
          cases h
          exact ⟨rfl, rfl⟩
        | cons p fs' ihf =>
          intro gs hsz' hwf' h
          cases h with
          | cons hv hfs =>
            rename_i k v' w' gs'
            obtain ⟨e1, e2⟩ := ihf gs'
              (fun q hq => hsz' q (List.mem_cons_of_mem _ hq))
              (fun q hq => hwf' q (List.mem_cons_of_mem _ hq)) hfs
            have e0 : canon v' = canon w' :=
              ih v' w' (hsz' (k, v') (List.mem_cons_self _ fs')) hv
                (hwf' (k, v') (List.mem_cons_self _ fs'))
            constructor
            · simp only [canonFields]
              rw [e0, e1]
            · simp only [List.map_cons]
              rw [e2]
      obtain ⟨hmid, hkeys⟩ := hgen l1 lmid hsz hwfp hfields
      simp only [canon]
      rw [hmid]
      have hres : sortFields (canonFields lmid) = sortFields (canonFields l2) := by
        refine sortFields_eq_of_perm ?_ ?_
        · rw [canonFields_eq_map, canonFields_eq_map]
          exact hperm.map _
        · rw [canonFields_keys, hkeys]
          exact hnd
      rw [hres]

/-! ## Dependency tracker lemmas -/

theorem creatorAt_zero (tests : List TestCase) (r : String) :
    creatorAt tests 0 r = none := by
  simp [creatorAt]

theorem creatorAt_lt {tests : List TestCase} {i j : Nat} {r : String}
    (h : creatorAt tests i r = some j) : j < i := by
  unfold creatorAt at h
  have hmem : j ∈ (List.range i).filter
      (fun j => ((testAt tests j).request.ref == r) && (r != "")) :=
    List.mem_of_getLast?_eq_some h
  have hr := List.mem_filter.1 hmem
  exact List.mem_range.1 hr.1

theorem creatorAt_succ (tests : List TestCase) (i : Nat) (r : String) :
    creatorAt tests (i + 1) r =
      if ((testAt tests i).request.ref == r) && (r != "") then some i
      else creatorAt tests i r := by
  unfold creatorAt
  rw [List.range_succ, List.filter_append]
  by_cases hc : ((testAt tests i).request.ref == r) && (r != "")
  · simp only [hc, if_true, List.filter_cons, List.filter_nil]
    simp [hc, List.getLast?_concat]
  · simp only [hc, if_false]
    simp [List.filter_cons, List.filter_nil, hc]

theorem directDep_lt {tests : List TestCase} {j i : Nat}
    (h : DirectDep tests j i) : j < i := by
  obtain ⟨r, _, hc⟩ := h
  exact creatorAt_lt hc

theorem reaches_lt {tests : List TestCase} {j i : Nat}
    (h : Reaches tests j i) : j < i := by
  induction h with
  | direct hd => exact directDep_lt hd
  | step hd _ ih => exact ih.trans (directDep_lt hd)

theorem reaches_iff {tests : List TestCase} {x i : Nat} :
    Reaches tests x i ↔
      ∃ j, DirectDep tests j i ∧ (x = j ∨ Reaches tests x j) := by
  constructor
  · intro h
    cases h with
    | direct hd => exact ⟨x, hd, .inl rfl⟩
    | step hd hr => exact ⟨_, hd, .inr hr⟩
  · rintro ⟨j, hd, rfl | hr⟩
    · exact .direct hd
    · exact .step hd hr

theorem collectParentChains_ok_mem {dt : DependencyTracker} {testIndex : Nat}
    {reqId : String} : ∀ {refs : List String} {pcs : List (List Nat)},
    collectParentChains dt testIndex reqId refs = .ok pcs →
    ∀ x, (∃ c ∈ pcs, x ∈ c) ↔
      ∃ r ∈ refs, ∃ j, assocFind r dt.refCreators = some j ∧
        (x = j ∨ ∃ ch, assocFind j dt.depChains = some ch ∧ x ∈ ch) := by
  intro refs
  induction refs with
  | nil =>
    intro pcs h x
    simp only [collectParentChains, Except.ok.injEq] at h
    subst h
    simp
  | cons r rest ih =>
    intro pcs h x
    simp only [collectParentChains] at h
    rcases hfind : assocFind r dt.refCreators with _ | creatorIdx
    · rw [hfind] at h
      exact absurd h (by simp)
    · rw [hfind] at h
      rcases hrec : collectParentChains dt testIndex reqId rest with e | tail
      · rw [hrec] at h
        exact absurd h (by simp [Except.map])
      · rw [hrec] at h
        simp only [Except.map, Except.ok.injEq] at h
        have ihx := ih hrec x
        rcases hdc : assocFind creatorIdx dt.depChains with _ | ch
        · rw [hdc] at h
          subst h
          constructor
          · rintro ⟨c, hc, hx⟩
            rcases List.mem_cons.1 hc with rfl | hc
            · rcases List.mem_singleton.1 hx with rfl
              exact ⟨r, List.mem_cons_self r rest, x, hfind, .inl rfl⟩
            · rcases ihx.1 ⟨c, (by simpa using hc), hx⟩ with ⟨r', hr', hrest⟩
              exact ⟨r', List.mem_cons_of_mem r hr', hrest⟩
          · rintro ⟨r', hr', j, hj, hcase⟩
            rcases List.mem_cons.1 hr' with rfl | hr'
            · rw [hfind] at hj
              obtain rfl : creatorIdx = j := Option.some.inj hj
              rcases hcase with rfl | ⟨ch', hch', _⟩
              · exact ⟨[x], List.mem_cons_self _ _, List.mem_singleton.2 rfl⟩
              · rw [hdc] at hch'
                exact absurd hch' (by simp)
            · rcases ihx.2 ⟨r', hr', j, hj, hcase⟩ with ⟨c, hc, hx⟩
              exact ⟨c, List.mem_cons_of_mem _ hc, hx⟩
        · rw [hdc] at h
          subst h
          constructor
          · rintro ⟨c, hc, hx⟩
            rcases List.mem_cons.1 hc with rfl | hc
            · rcases List.mem_singleton.1 hx with rfl
              exact ⟨r, List.mem_cons_self r rest, x, hfind, .inl rfl⟩
            · rcases List.mem_cons.1 (by simpa using hc : c ∈ ch :: tail) with rfl | hc
              · exact ⟨r, List.mem_cons_self r rest, creatorIdx, hfind,
                  .inr ⟨c, hdc, hx⟩⟩
              · rcases ihx.1 ⟨c, hc, hx⟩ with ⟨r', hr', hrest⟩
                exact ⟨r', List.mem_cons_of_mem r hr', hrest⟩
          · rintro ⟨r', hr', j, hj, hcase⟩
            rcases List.mem_cons.1 hr' with rfl | hr'
            · rw [hfind] at hj
              obtain rfl : creatorIdx = j := Option.some.inj hj
              rcases hcase with rfl | ⟨ch', hch', hxch⟩
              · exact ⟨[x], List.mem_cons_self _ _, List.mem_singleton.2 rfl⟩
              · rw [hdc] at hch'
                obtain rfl : ch = ch' := Option.some.inj hch'
                refine ⟨ch, ?_, hxch⟩
                simp
            · rcases ihx.2 ⟨r', hr', j, hj, hcase⟩ with ⟨c, hc, hx⟩
              refine ⟨c, ?_, hx⟩
              simp [hc]

theorem collectParentChains_undefined {dt : DependencyTracker} {testIndex : Nat}
    {reqId : String} : ∀ {refs : List String},
    (∃ r ∈ refs, assocFind r dt.refCreators = none) →
    ∃ r ∈ refs, assocFind r dt.refCreators = none ∧
      collectParentChains dt testIndex reqId refs =
        .error ⟨testIndex, reqId, r⟩ := by
  intro refs
  induction refs with
  | nil =>
    rintro ⟨r, hr, _⟩
    exact absurd hr (List.not_mem_nil r)
  | cons r rest ih =>
    rintro ⟨r', hr', hnone⟩
    rcases hfind : assocFind r dt.refCreators with _ | creatorIdx
    · refine ⟨r, List.mem_cons_self r rest, hfind, ?_⟩
      simp only [collectParentChains, hfind]
    · have hr'rest : r' ∈ rest := by
        rcases List.mem_cons.1 hr' with rfl | h
        · rw [hfind] at hnone
          exact absurd hnone (by simp)
        · exact h
      obtain ⟨r'', hr'', hnone'', herr⟩ := ih ⟨r', hr'rest, hnone⟩
      refine ⟨r'', List.mem_cons_of_mem r hr'', hnone'', ?_⟩
      simp only [collectParentChains, hfind, herr, Except.map]

theorem onTestExecuted_depChains (dt : DependencyTracker) (i : Nat)
    (t : TestCase) : (OnTestExecuted dt i t).depChains = dt.depChains := by
  simp only [OnTestExecuted]
  repeat' split
  all_goals rfl

theorem onTestExecuted_refCreators (dt : DependencyTracker) (i : Nat)
    (t : TestCase) : (OnTestExecuted dt i t).refCreators =
      if t.request.ref ≠ "" then assocUpsert t.request.ref i dt.refCreators
      else dt.refCreators := by
  simp only [OnTestExecuted]
  repeat' split
  all_goals simp_all

theorem onTestExecuted_statefulRefs (dt : DependencyTracker) (i : Nat)
    (t : TestCase) : (OnTestExecuted dt i t).statefulRefs =
      if t.request.ref ≠ "" ∧ statefulCreatorMethods t.request.method then
        setInsert t.request.ref dt.statefulRefs
      else dt.statefulRefs := by
  simp only [OnTestExecuted]
  repeat' split
  all_goals simp_all

theorem buildDeps_ok_elim {dt dt1 : DependencyTracker} {i : Nat} {t : TestCase}
    (h : BuildDependenciesForTest dt i t = .ok dt1) :
    ∃ pcs, collectParentChains dt i t.request.id (refsOfTest t) = .ok pcs ∧
      dt1 = DependencyTracker.mk dt.refCreators dt.statefulRefs
        (assocUpsert i (mergeSortedUnique pcs) dt.depChains) dt.stateDependencies := by
  unfold BuildDependenciesForTest at h
  rcases hc : collectParentChains dt i t.request.id (refsOfTest t) with e | pcs
  · rw [hc] at h
    exact absurd h (by simp [Except.map])
  · rw [hc] at h
    simp only [Except.map, Except.ok.injEq] at h
    exact ⟨pcs, rfl, h.symm⟩

theorem setInsert_mem {r k : String} {s : List String} :
    r ∈ setInsert k s ↔ r = k ∨ r ∈ s := by
  unfold setInsert
  split
  · rename_i hk
    constructor
    · exact .inr
    · rintro (rfl | h)
      · exact hk
      · exact h
  · simp [List.mem_cons]

theorem trackerInv_zero (tests : List TestCase) :
    TrackerInv tests 0 NewDependencyTracker := by
  refine ⟨?_, ?_, ?_⟩
  · intro r
    rw [creatorAt_zero]
    rfl
  · intro i hi
    exact absurd hi (Nat.not_lt_zero i)
  · intro r
    simp [NewDependencyTracker]

theorem inv_step {tests : List TestCase} {i : Nat} {dt dt2 : DependencyTracker}
    (hinv : TrackerInv tests i dt)
    (h : processTest dt i (testAt tests i) = .ok dt2) :
    TrackerInv tests (i + 1) dt2 := by
  obtain ⟨inv1, inv2, inv3⟩ := hinv
  unfold processTest at h
  rcases hb : BuildDependenciesForTest dt i (testAt tests i) with e | dt1
  · rw [hb] at h
    exact absurd h (by simp [Except.map])
  · rw [hb] at h
    simp only [Except.map, Except.ok.injEq] at h
    subst h
    obtain ⟨pcs, hcol, hdt1⟩ := buildDeps_ok_elim hb
    subst hdt1
    refine ⟨?_, ?_, ?_⟩
    · -- refCreators
      intro r
      rw [onTestExecuted_refCreators, creatorAt_succ]
      simp only []
      split
      · rename_i href
        rw [assocFind_upsert]
        by_cases hr : r = (testAt tests i).request.ref
        · subst hr
          simp [href]
        · have h1 : ((testAt tests i).request.ref == r) = false := by
            simp
            exact fun hh => hr hh.symm
          simp [hr, h1]
          exact inv1 r
      · rename_i href
        have hempty : (testAt tests i).request.ref = "" := by
          by_contra hne
          exact href hne
        by_cases hr : r = ""
        · subst hr
          simp
          exact inv1 ""
        · have h1 : ((testAt tests i).request.ref == r) = false := by
            rw [hempty]
            simp
            exact fun hh => hr hh.symm
          simp [h1]
          exact inv1 r
    · -- depChains
      intro idx hidx
      rw [onTestExecuted_depChains]
      simp only []
      rcases Nat.lt_succ_iff_lt_or_eq.1 hidx with hlt | rfl
      · obtain ⟨c, hc, hs, hbnd, hchar⟩ := inv2 idx hlt
        refine ⟨c, ?_, hs, hbnd, hchar⟩
        rw [assocFind_upsert]
        simp [Nat.ne_of_lt hlt, hc]
      · refine ⟨mergeSortedUnique pcs, ?_, sorted_mergeSortedUnique pcs, ?_, ?_⟩
        · rw [assocFind_upsert]
          simp
        · intro j hj
          have hr : Reaches tests j idx := by
            have hmem := (collectParentChains_ok_mem hcol j).1
              (mem_mergeSortedUnique.1 hj)
            obtain ⟨r, hrref, k, hfindk, hcase⟩ := hmem
            rw [inv1 r] at hfindk
            have hklt : k < idx := creatorAt_lt hfindk
            refine reaches_iff.2 ⟨k, ⟨r, hrref, hfindk⟩, ?_⟩
            rcases hcase with rfl | ⟨ch, hch, hjch⟩
            · exact .inl rfl
            · obtain ⟨c0, hc0, _, _, hchar0⟩ := inv2 k hklt
              rw [hc0] at hch
              obtain rfl : c0 = ch := Option.some.inj hch
              exact .inr ((hchar0 j).1 hjch)
          exact reaches_lt hr
        · intro j
          constructor
          · intro hj
            have hmem := (collectParentChains_ok_mem hcol j).1
              (mem_mergeSortedUnique.1 hj)
            obtain ⟨r, hrref, k, hfindk, hcase⟩ := hmem
            rw [inv1 r] at hfindk
            have hklt : k < idx := creatorAt_lt hfindk
            refine reaches_iff.2 ⟨k, ⟨r, hrref, hfindk⟩, ?_⟩
            rcases hcase with rfl | ⟨ch, hch, hjch⟩
            · exact .inl rfl
            · obtain ⟨c0, hc0, _, _, hchar0⟩ := inv2 k hklt
              rw [hc0] at hch
              obtain rfl : c0 = ch := Option.some.inj hch
              exact .inr ((hchar0 j).1 hjch)
          · intro hr
            obtain ⟨k, hd, hcase⟩ := reaches_iff.1 hr
            obtain ⟨r, hrref, hcreator⟩ := hd
            have hklt : k < idx := creatorAt_lt hcreator
            rw [mem_mergeSortedUnique]
            refine (collectParentChains_ok_mem hcol j).2 ?_
            refine ⟨r, hrref, k, ?_, ?_⟩
            · rw [inv1 r]
              exact hcreator
            · rcases hcase with rfl | hrk
              · exact .inl rfl
              · obtain ⟨c0, hc0, _, _, hchar0⟩ := inv2 k hklt
                exact .inr ⟨c0, hc0, (hchar0 j).2 hrk⟩
    · -- statefulRefs
      intro r
      rw [onTestExecuted_statefulRefs]
      simp only []
      split
      · rename_i hcond
        obtain ⟨hrefne, hcreator⟩ := hcond
        rw [setInsert_mem]
        constructor
        · rintro (rfl | hmem)
          · exact ⟨i, Nat.lt_succ_self i, rfl, hrefne, hcreator⟩
          · obtain ⟨j, hj, hp⟩ := (inv3 r).1 hmem
            exact ⟨j, hj.trans (Nat.lt_succ_self i), hp⟩
        · rintro ⟨j, hj, hp⟩
          rcases Nat.lt_succ_iff_lt_or_eq.1 hj with hlt | rfl
          · exact .inr ((inv3 r).2 ⟨j, hlt, hp⟩)
          · exact .inl hp.1.symm
      · rename_i hcond
        constructor
        · intro hmem
          obtain ⟨j, hj, hp⟩ := (inv3 r).1 hmem
          exact ⟨j, Nat.lt_succ_of_lt hj, hp⟩
        · rintro ⟨j, hj, hp⟩
          rcases Nat.lt_succ_iff_lt_or_eq.1 hj with hlt | rfl
          · exact (inv3 r).2 ⟨j, hlt, hp⟩
          · exfalso
            exact hcond ⟨hp.1 ▸ hp.2.1, hp.2.2⟩

theorem runTrackerFrom_inv {tests : List TestCase} : ∀ {ts : List TestCase}
    {i : Nat} {dt dt' : DependencyTracker}, ts = tests.drop i →
    i ≤ tests.length → TrackerInv tests i dt →
    runTrackerFrom dt i ts = .ok dt' → TrackerInv tests tests.length dt' := by
  intro ts
  induction ts with
  | nil =>
    intro i dt dt' hdrop hlen hinv h
    simp only [runTrackerFrom, Except.ok.injEq] at h
    subst h
    have : tests.length ≤ i := by
      by_contra hc
      have : tests.drop i ≠ [] := by
        intro he
        rw [List.drop_eq_nil_iff] at he
        omega
      exact this hdrop.symm
    have hieq : i = tests.length := Nat.le_antisymm hlen this
    subst hieq
    exact hinv
  | cons t ts' ih =>
    intro i dt dt' hdrop hlen hinv h
    have hlt : i < tests.length := by
      by_contra hc
      have hnil : tests.drop i = [] := List.drop_eq_nil_iff.2 (by omega)
      rw [hnil] at hdrop
      exact List.noConfusion hdrop
    have ht : testAt tests i = t := by
      have h0 : (tests.drop i)[0]? = some t := by
        rw [← hdrop]
        simp
      rw [List.getElem?_drop] at h0
      unfold testAt
      rw [List.getD_eq_getElem?_getD]
      simp only [Nat.add_zero] at h0
      simp [h0]
    have hts' : ts' = tests.drop (i + 1) := by
      have htail : (tests.drop i).tail = tests.drop (i + 1) := List.tail_drop tests i
      rw [← hdrop] at htail
      exact htail
    simp only [runTrackerFrom] at h
    split at h
    · rename_i dt1 hstep
      exact ih hts' hlt (inv_step hinv (ht ▸ hstep)) h
    · exact Except.noConfusion h

theorem runTracker_inv {tests : List TestCase} {dt : DependencyTracker}
    (h : runTracker tests = .ok dt) : TrackerInv tests tests.length dt :=
  runTrackerFrom_inv (List.drop_zero tests).symm (Nat.zero_le _)
    (trackerInv_zero tests) h


/-! ## State-dependency lemmas -/

theorem onTestExecuted_stateDeps_mutating {dt : DependencyTracker} {i : Nat}
    {t : TestCase} (h : stateMutatingMethods t.request.method = true) :
    (OnTestExecuted dt i t).stateDependencies =
      mergeSortedUnique [dt.stateDependencies,
        ((assocFind i dt.depChains).getD []) ++ [i]] := by
  simp only [OnTestExecuted]
  repeat' split
  all_goals simp_all

theorem onTestExecuted_stateDeps_not_mutating {dt : DependencyTracker} {i : Nat}
    {t : TestCase} (h : stateMutatingMethods t.request.method = false) :
    (OnTestExecuted dt i t).stateDependencies = dt.stateDependencies := by
  simp only [OnTestExecuted]
  repeat' split
  all_goals simp_all

theorem onTestExecuted_stateDeps_monotone (dt : DependencyTracker) (i : Nat)
    (t : TestCase) : ∀ x ∈ dt.stateDependencies,
    x ∈ (OnTestExecuted dt i t).stateDependencies := by
  intro x hx
  cases hm : stateMutatingMethods t.request.method
  · rw [onTestExecuted_stateDeps_not_mutating hm]
    exact hx
  · rw [onTestExecuted_stateDeps_mutating hm]
    rw [mem_mergeSortedUnique]
    exact ⟨dt.stateDependencies, List.mem_cons_self _ _, hx⟩

theorem processTest_stateDeps_monotone {dt dt' : DependencyTracker} {i : Nat}
    {t : TestCase} (h : processTest dt i t = .ok dt') :
    ∀ x ∈ dt.stateDependencies, x ∈ dt'.stateDependencies := by
  unfold processTest at h
  rcases hb : BuildDependenciesForTest dt i t with e | dt1
  · rw [hb] at h
    exact absurd h (by simp [Except.map])
  · rw [hb] at h
    simp only [Except.map, Except.ok.injEq] at h
    subst h
    obtain ⟨pcs, _, hdt1⟩ := buildDeps_ok_elim hb
    subst hdt1
    intro x hx
    exact onTestExecuted_stateDeps_monotone _ i t x hx

/-! ## Stateful-suite lemmas -/

theorem runSuiteFrom_failed (exec : Nat → Bool) : ∀ (rem i : Nat),
    runSuiteFrom exec true i rem true =
      (List.replicate rem (false, skippedMessage), []) := by
  intro rem
  induction rem with
  | zero => intro i; rfl
  | succ rem ih =>
    intro i
    simp only [runSuiteFrom, Bool.and_self, if_true, ih (i + 1)]
    rfl

theorem runSuiteFrom_skips (exec : Nat → Bool) : ∀ (rem i : Nat) (failed : Bool)
    (k j : Nat) (rk : Bool × String), k < j → j < rem →
    (runSuiteFrom exec true i rem failed).1[k]? = some rk → rk.1 = false →
    (runSuiteFrom exec true i rem failed).1[j]? = some (false, skippedMessage) ∧
    (i + j) ∉ (runSuiteFrom exec true i rem failed).2 := by
  intro rem
  induction rem with
  | zero =>
    intro i failed k j rk hkj hj
    exact absurd hj (Nat.not_lt_zero j)
  | succ rem ih =>
    intro i failed k j rk hkj hj hget hfail
    cases failed with
    | true =>
      rw [runSuiteFrom_failed] at hget ⊢
      refine ⟨?_, List.not_mem_nil _⟩
      rw [List.getElem?_replicate]
      simp [hj]
    | false =>
      have hred : runSuiteFrom exec true i (rem + 1) false =
          ((exec i, if exec i then "test passed" else "test failed") ::
            (runSuiteFrom exec true (i + 1) rem (!exec i)).1,
           i :: (runSuiteFrom exec true (i + 1) rem (!exec i)).2) := rfl
      rw [hred] at hget ⊢
      cases k with
      | zero =>
        simp only [List.getElem?_cons_zero, Option.some.injEq] at hget
        have hok : exec i = false := by
          rw [← hget] at hfail
          exact hfail
        rw [hok] at hget ⊢
        simp only [Bool.not_false] at *
        rw [runSuiteFrom_failed] at *
        constructor
        · cases j with
          | zero => exact absurd hkj (Nat.lt_irrefl 0)
          | succ j' =>
            simp only [List.getElem?_cons_succ]
            rw [List.getElem?_replicate]
            simp only [Nat.succ_lt_succ_iff] at hj
            simp [hj]
        · intro hmem
          rcases List.mem_cons.1 hmem with heq | hmem
          · omega
          · exact absurd hmem (List.not_mem_nil _)
      | succ k' =>
        simp only [List.getElem?_cons_succ] at hget
        cases j with
        | zero => exact absurd hkj (Nat.not_lt_zero _)
        | succ j' =>
          have hkj' : k' < j' := Nat.succ_lt_succ_iff.1 hkj
          have hj' : j' < rem := Nat.succ_lt_succ_iff.1 hj
          obtain ⟨hres, hnmem⟩ := ih (i + 1) (!exec i) k' j' rk hkj' hj' hget hfail
          constructor
          · simpa [List.getElem?_cons_succ] using hres
          · intro hmem
            rcases List.mem_cons.1 hmem with heq | hmem
            · omega
            · have : (i + 1) + j' = i + (j' + 1) := by omega
              rw [← this] at hmem
              exact hnmem hmem


/-! ## Claim theorems -/

/-- Claim C1: for every suite processed in order, the chain stored for
test `i` is exactly the transitive closure, under reference-creation
edges, of the earlier indices whose created refs are directly or
indirectly consumed by `i`'s params — ascending, duplicate-free, never
containing `i` or anything ≥ `i`; on scenario A the chains are `[]`,
`[0]`, `[]`, `[0,1,2]`. -/
theorem dependency_chains_transitive_closure :
    (∀ tests dt, runTracker tests = .ok dt → ∀ i, i < tests.length →
      ∃ c, assocFind i dt.depChains = some c ∧ c.Sorted (· < ·) ∧ c.Nodup ∧
        i ∉ c ∧ (∀ j ∈ c, j < i) ∧ (∀ j, j ∈ c ↔ Reaches tests j i)) ∧
    (runTracker scenarioATests = .ok scenarioATracker ∧
      assocFind 0 scenarioATracker.depChains = some [] ∧
      assocFind 1 scenarioATracker.depChains = some [0] ∧
      assocFind 2 scenarioATracker.depChains = some [] ∧
      assocFind 3 scenarioATracker.depChains = some [0, 1, 2]) := by
  constructor
  · intro tests dt hrun i hi
    obtain ⟨_, inv2, _⟩ := runTracker_inv hrun
    obtain ⟨c, hc, hs, hbnd, hchar⟩ := inv2 i hi
    refine ⟨c, hc, hs, hs.nodup, ?_, hbnd, hchar⟩
    intro hmem
    exact absurd (hbnd i hmem) (Nat.lt_irrefl i)
  · exact ⟨rfl, rfl, rfl, rfl, rfl⟩

/-- Witness for C1: the general theorem applied to scenario A at test
index 3. -/
theorem dependency_chains_transitive_closure_witness :
    3 < scenarioATests.length ∧
    (∃ c, assocFind 3 scenarioATracker.depChains = some c ∧
      c.Sorted (· < ·) ∧ c.Nodup ∧ 3 ∉ c ∧ (∀ j ∈ c, j < 3) ∧
      (∀ j, j ∈ c ↔ Reaches scenarioATests j 3)) :=
  ⟨by decide, dependency_chains_transitive_closure.1 scenarioATests
    scenarioATracker rfl 3 (by decide)⟩

/-- Claim C2 (modelled from the spec, the final `RunTestSuite` being
absent from the sources): in a stateful suite, once the test at index
`k` fails, every later test is recorded failed with the fixed skip
message and the handler is never contacted for it. -/
theorem stateful_suite_short_circuits :
    ∀ (exec : Nat → Bool) (n k j : Nat) (rk : Bool × String), k < j → j < n →
    (runSuite exec true n).1[k]? = some rk → rk.1 = false →
    (runSuite exec true n).1[j]? = some (false, skippedMessage) ∧
    j ∉ (runSuite exec true n).2 := by
  intro exec n k j rk hkj hj hget hfail
  have h := runSuiteFrom_skips exec n 0 false k j rk hkj hj hget hfail
  rwa [Nat.zero_add] at h

/-- Witness for C2: a four-test stateful suite whose second test
fails; the fourth test is recorded skipped-failed and not contacted. -/
theorem stateful_suite_short_circuits_witness :
    (1 : Nat) < 3 ∧ (3 : Nat) < 4 ∧
    (runSuite (fun i => i != 1) true 4).1[1]? = some (false, "test failed") ∧
    ((runSuite (fun i => i != 1) true 4).1[3]? = some (false, skippedMessage) ∧
      3 ∉ (runSuite (fun i => i != 1) true 4).2) :=
  ⟨by decide, by decide, by decide,
    stateful_suite_short_circuits (fun i => i != 1) 4 1 3 (false, "test failed")
      (by decide) (by decide) (by decide) rfl⟩

/-- Claim C4 (with `ParseRefObject` modelled from the spec): the
reference-extraction routine accepts both encodings — a bare
`$`-prefixed string and an object `{ "ref": "$name" }` — for every
first-level value of `params`, and returns nothing else. -/
theorem extractRefs_accepts_both_encodings :
    ∀ (ptxt : String) (fields : List (String × Json)),
    parseJson ptxt = some (.obj fields) →
    (∀ k s, (k, Json.str s) ∈ fields → isRefToken s = true →
      s ∈ extractRefsFromParams (some ptxt)) ∧
    (∀ k g name, (k, Json.obj g) ∈ fields →
      assocFind "ref" g = some (.str name) → isRefToken name = true →
      name ∈ extractRefsFromParams (some ptxt)) ∧
    (∀ r, r ∈ extractRefsFromParams (some ptxt) →
      ∃ k v, (k, v) ∈ fields ∧ ParseRefObject v = some r) := by
  intro ptxt fields hp
  refine ⟨?_, ?_, ?_⟩
  · intro k s hmem href
    simp only [extractRefsFromParams, hp]
    refine List.mem_filterMap.2 ⟨(k, Json.str s), hmem, ?_⟩
    simp [ParseRefObject, href]
  · intro k g name hmem hlook href
    simp only [extractRefsFromParams, hp]
    refine List.mem_filterMap.2 ⟨(k, Json.obj g), hmem, ?_⟩
    simp [ParseRefObject, hlook, href]
  · intro r hr
    simp only [extractRefsFromParams, hp] at hr
    obtain ⟨p, hpmem, hpr⟩ := List.mem_filterMap.1 hr
    exact ⟨p.1, p.2, hpmem, hpr⟩

/-- Witness for C4: a params object carrying one bare-string ref and
one wrapped-object ref; both are extracted. -/
theorem extractRefs_accepts_both_encodings_witness :
    "$x" ∈ extractRefsFromParams (some "\x7b\"a\": \"$x\", \"b\": \x7b\"ref\": \"$y\"\x7d\x7d") ∧
    "$y" ∈ extractRefsFromParams (some "\x7b\"a\": \"$x\", \"b\": \x7b\"ref\": \"$y\"\x7d\x7d") :=
  ⟨(extractRefs_accepts_both_encodings "\x7b\"a\": \"$x\", \"b\": \x7b\"ref\": \"$y\"\x7d\x7d"
      [("a", Json.str "$x"), ("b", Json.obj [("ref", Json.str "$y")])] rfl).1
      "a" "$x" (List.Mem.head _) (by decide),
   (extractRefs_accepts_both_encodings "\x7b\"a\": \"$x\", \"b\": \x7b\"ref\": \"$y\"\x7d\x7d"
      [("a", Json.str "$x"), ("b", Json.obj [("ref", Json.str "$y")])] rfl).2.1
      "b" [("ref", Json.str "$y")] "$y" (List.Mem.tail _ (List.Mem.head _))
      rfl (by decide)⟩

/-- Counterexample for claim C5: the claim says the undefined-reference
defect "is propagated up the call stack as a normal error result
rather than an unrecoverable abort", but the source's
`BuildDependenciesForTest` returns nothing and `panic`s — modelled by
the `UndefinedRefPanic` outcome, which this evaluation reaches on a
test consuming the never-created `$missing` (no `recover` exists in
the runner). -/
theorem undefined_ref_panics_counterexample :
    runTracker undefinedRefTests = .error ⟨0, "test0", "$missing"⟩ := rfl

/-- Claim C5 as amended: consuming a reference no earlier test created
makes `BuildDependenciesForTest` panic with a payload naming the
offending test index, request id and reference, and the panic aborts
the rest of the run immediately. -/
theorem buildDependencies_undefined_ref_fatal :
    ∀ (dt : DependencyTracker) (i : Nat) (t : TestCase),
    (∃ r ∈ refsOfTest t, assocFind r dt.refCreators = none) →
    (∃ r ∈ refsOfTest t, assocFind r dt.refCreators = none ∧
      BuildDependenciesForTest dt i t = .error ⟨i, t.request.id, r⟩) ∧
    (∀ e ts, BuildDependenciesForTest dt i t = .error e →
      runTrackerFrom dt i (t :: ts) = .error e) := by
  intro dt i t hex
  constructor
  · obtain ⟨r, hr, hnone, herr⟩ :=
      @collectParentChains_undefined dt i t.request.id (refsOfTest t) hex
    refine ⟨r, hr, hnone, ?_⟩
    unfold BuildDependenciesForTest
    rw [herr]
    rfl
  · intro e ts hb
    have hpt : processTest dt i t = .error e := by
      unfold processTest
      rw [hb]
      rfl
    simp only [runTrackerFrom, hpt]

/-- Witness for C5 (amended): the panic on the concrete one-test
suite using `$missing`. -/
theorem buildDependencies_undefined_ref_fatal_witness :
    (∃ r ∈ refsOfTest (testAt undefinedRefTests 0),
      assocFind r NewDependencyTracker.refCreators = none) ∧
    (∃ r ∈ refsOfTest (testAt undefinedRefTests 0),
      assocFind r NewDependencyTracker.refCreators = none ∧
      BuildDependenciesForTest NewDependencyTracker 0 (testAt undefinedRefTests 0) =
        .error ⟨0, (testAt undefinedRefTests 0).request.id, r⟩) :=
  ⟨by decide,
   (buildDependencies_undefined_ref_fatal NewDependencyTracker 0
      (testAt undefinedRefTests 0) (by decide)).1⟩

/-- `validateResponseForError` rejects a present result when an error
is present. -/
theorem valForError_result_check {test : Val.TestCase} {resp : Val.Response}
    {e : RespError} {re : RespError} (h1 : test.expected.error = some e)
    (h2 : resp.error = some re) (h3 : resp.result.IsNullOrOmitted = false) :
    Val.validateResponseForError test resp =
      .error ("expected result to be null or omitted when error is present, got: "
        ++ resp.result.rawText) := by
  unfold Val.validateResponseForError
  rw [h1, h2, h3]
  rfl

/-- `validateResponseForSuccess` rejects any present error. -/
theorem valForSuccess_error_check {test : Val.TestCase} {resp : Val.Response}
    {re : RespError} (h1 : test.expected.error = none) (h2 : resp.error = some re) :
    ∃ msg, Val.validateResponseForSuccess test resp = .error msg := by
  obtain ⟨rcode⟩ := re
  unfold Val.validateResponseForSuccess
  rw [h1, h2]
  rcases rcode with _ | rc
  · exact ⟨_, rfl⟩
  · exact ⟨_, rfl⟩

/-- Claim C6: a response carrying both a present error and a present
non-null result is always rejected, whatever the expectation. -/
theorem validateResponse_rejects_error_and_result :
    ∀ (test : Val.TestCase) (resp : Val.Response), resp.error.isSome →
    resp.result.IsNullOrOmitted = false →
    ∃ msg, Val.validateResponse test resp = .error msg := by
  intro test resp herr hres
  obtain ⟨re, hre⟩ := Option.isSome_iff_exists.1 herr
  unfold Val.validateResponse
  split
  · exact ⟨_, rfl⟩
  · rcases hexp : test.expected.error with _ | e
    · exact valForSuccess_error_check hexp hre
    · exact ⟨_, valForError_result_check hexp hre hres⟩

/-- Witness for C6: a concrete response with `error` present and
`result = 5` is rejected although an error was expected. -/
theorem validateResponse_rejects_error_and_result_witness :
    (Val.Response.mk "t1" (some "5") (some ⟨none⟩)).error.isSome = true ∧
    (Val.Response.mk "t1" (some "5") (some ⟨none⟩)).result.IsNullOrOmitted = false ∧
    (∃ msg, Val.validateResponse
      (Val.TestCase.mk "t1" "m" none (Val.TestExpectation.mk (some ⟨none⟩) none))
      (Val.Response.mk "t1" (some "5") (some ⟨none⟩)) = .error msg) :=
  ⟨rfl, rfl,
   validateResponse_rejects_error_and_result
     (Val.TestCase.mk "t1" "m" none (Val.TestExpectation.mk (some ⟨none⟩) none))
     (Val.Response.mk "t1" (some "5") (some ⟨none⟩)) rfl rfl⟩

/-- Counterexample for claim C7: the claim says `ReadLine` waits "the
per-call response timeout carried in the handler's spawn
configuration"; `HandlerConfig` (path, args, env) carries no per-call
timeout at all — two different configurations both carry none — and
the wait bound in the source is the fixed literal `10 * time.Second`. -/
theorem readLine_timeout_not_from_config_counterexample :
    perCallTimeoutOf ⟨"/bin/handler-a", [], []⟩ = none ∧
    perCallTimeoutOf ⟨"/bin/handler-b", ["--fast"], ["X=1"]⟩ = none ∧
    readLineTimeoutSeconds = 10 :=
  ⟨rfl, rfl, rfl⟩

/-- Claim C7 as amended: `ReadLine` waits at most a fixed 10-second
timeout; a line that arrives first is returned, the child closing its
output first yields `HandlerClosed`, the timeout firing first yields
`HandlerTimeout`; in both failure cases the process is force-killed
and non-empty stderr output is attached to the error. -/
theorem readLine_event_semantics :
    (∀ l st, ReadLine (.line l) st = (.ok l, false)) ∧
    (∀ st, ReadLine .closed st = (.error (.handlerClosed (attachStderr st)), true)) ∧
    (∀ st, ReadLine .timeout st =
      (.error (.handlerTimeout (attachStderr st)), true)) ∧
    (∀ st, st ≠ "" → attachStderr st = some st) ∧
    attachStderr "" = none ∧
    readLineTimeoutSeconds = 10 := by
  refine ⟨fun l st => rfl, fun st => rfl, fun st => rfl, ?_, rfl, rfl⟩
  intro st hst
  unfold attachStderr
  simp [hst]

/-- Witness for C7 (amended): the three events on concrete inputs. -/
theorem readLine_event_semantics_witness :
    ReadLine (.line "\x7b\"result\":true\x7d") "" = (.ok "\x7b\"result\":true\x7d", false) ∧
    ReadLine .closed "boom" = (.error (.handlerClosed (some "boom")), true) ∧
    ReadLine .timeout "" = (.error (.handlerTimeout none), true) ∧
    ("boom" ≠ "" ∧ attachStderr "boom" = some "boom") := by
  refine ⟨readLine_event_semantics.1 _ _, ?_, ?_,
    by decide, readLine_event_semantics.2.2.2.1 "boom" (by decide)⟩
  · have h := readLine_event_semantics.2.1 "boom"
    rwa [show attachStderr "boom" = some "boom" from rfl] at h
  · have h := readLine_event_semantics.2.2.1 ""
    rwa [show attachStderr "" = none from rfl] at h

/-- Claim C8: for a state-mutating test, the state-dependency set
becomes the sorted duplicate-free union of its previous value with
`depChains[i] ∪ {i}`; no tracker operation ever shrinks it; in
scenario C the cumulative set after the `process_block` test at index
3 is `[0, 1, 2, 3]`. -/
theorem state_dependencies_grow_monotonically :
    (∀ (dt : DependencyTracker) (i : Nat) (t : TestCase),
      stateMutatingMethods t.request.method = true →
      (∀ x, x ∈ (OnTestExecuted dt i t).stateDependencies ↔
        x ∈ dt.stateDependencies ∨
          x ∈ (assocFind i dt.depChains).getD [] ∨ x = i) ∧
      ((OnTestExecuted dt i t).stateDependencies).Sorted (· < ·) ∧
      ((OnTestExecuted dt i t).stateDependencies).Nodup) ∧
    (∀ (dt dt' : DependencyTracker) (i : Nat) (t : TestCase),
      processTest dt i t = .ok dt' →
      ∀ x ∈ dt.stateDependencies, x ∈ dt'.stateDependencies) ∧
    (runTracker scenarioCTests = .ok scenarioCTracker ∧
      scenarioCTracker.stateDependencies = [0, 1, 2, 3]) := by
  refine ⟨?_, ?_, rfl, rfl⟩
  · intro dt i t hm
    rw [onTestExecuted_stateDeps_mutating hm]
    refine ⟨?_, sorted_mergeSortedUnique _, nodup_mergeSortedUnique _⟩
    intro x
    rw [mem_mergeSortedUnique]
    constructor
    · rintro ⟨c, hc, hx⟩
      rcases List.mem_cons.1 hc with rfl | hc
      · exact .inl hx
      · rcases List.mem_singleton.1 hc with rfl
        rcases List.mem_append.1 hx with hx | hx
        · exact .inr (.inl hx)
        · exact .inr (.inr (List.mem_singleton.1 hx))
    · rintro (hx | hx | rfl)
      · exact ⟨dt.stateDependencies, List.mem_cons_self _ _, hx⟩
      · exact ⟨_, List.mem_cons_of_mem _ (List.mem_cons_self _ _),
          List.mem_append.2 (.inl hx)⟩
      · exact ⟨_, List.mem_cons_of_mem _ (List.mem_cons_self _ _),
          List.mem_append.2 (.inr (List.mem_singleton.2 rfl))⟩
  · intro dt dt' i t h
    exact processTest_stateDeps_monotone h

/-- Witness for C8: the update equation at a concrete state-mutating
step, and monotonicity on a concrete run step. -/
theorem state_dependencies_grow_monotonically_witness :
    stateMutatingMethods "btck_chainstate_manager_process_block" = true ∧
    (∀ x, x ∈ (OnTestExecuted (DependencyTracker.mk [] [] [(3, [0, 1, 2])] [])
        3 (testAt scenarioCTests 3)).stateDependencies ↔
      x ∈ ([] : List Nat) ∨
        x ∈ (assocFind 3 [(3, [0, 1, 2])] : Option (List Nat)).getD [] ∨ x = 3) :=
  ⟨rfl, (state_dependencies_grow_monotonically.1
    (DependencyTracker.mk [] [] [(3, [0, 1, 2])] []) 3
    (testAt scenarioCTests 3) rfl).1⟩

/-- Claim C10: a response whose id differs from the request id fails
validation with the ID-mismatch error before any outcome comparison,
and every response that passes validation carries exactly the
request's id. -/
theorem validateResponse_id_check_first :
    (∀ (test : Val.TestCase) (resp : Val.Response), resp.id ≠ test.id →
      Val.validateResponse test resp =
        .error ("response ID mismatch: expected " ++ test.id ++ ", got " ++ resp.id)) ∧
    (∀ (test : Val.TestCase) (resp : Val.Response),
      Val.validateResponse test resp = .ok () → resp.id = test.id) := by
  constructor
  · intro test resp hid
    unfold Val.validateResponse
    rw [if_pos hid]
  · intro test resp h
    by_contra hid
    unfold Val.validateResponse at h
    rw [if_pos hid] at h
    exact Except.noConfusion h

/-- Witness for C10: a concrete mismatched response is rejected with
the ID-mismatch message even though its payload matches the
expectation. -/
theorem validateResponse_id_check_first_witness :
    ("t2" : String) ≠ "t1" ∧
    Val.validateResponse
      (Val.TestCase.mk "t1" "m" none (Val.TestExpectation.mk none none))
      (Val.Response.mk "t2" none none) =
      .error ("response ID mismatch: expected " ++ "t1" ++ ", got " ++ "t2") :=
  ⟨by decide,
   validateResponse_id_check_first.1
     (Val.TestCase.mk "t1" "m" none (Val.TestExpectation.mk none none))
     (Val.Response.mk "t2" none none) (by decide)⟩

/-- Claim C9: the canonical-JSON equality defined by `Normalize` is
reflexive and symmetric, and normalizing two texts that parse to
key-reordered versions of the same JSON value (whitespace never
reaches the parsed value) yields the same canonical string. -/
theorem normalize_insensitive_to_reformatting :
    (∀ r : Result, r.Normalize = r.Normalize) ∧
    (∀ r q : Result, r.Normalize = q.Normalize → q.Normalize = r.Normalize) ∧
    (∀ (s t : String) (v w : Json), parseJson s = some v → parseJson t = some w →
      KeyReorder v w → Result.Normalize (some s) = Result.Normalize (some t)) := by
  refine ⟨fun r => rfl, fun r q h => h.symm, ?_⟩
  intro s t v w hs ht hkr
  show normalizeText s = normalizeText t
  unfold normalizeText
  rw [hs, ht]
  have hcv : canon v = canon w :=
    canon_eq_of_keyReorder (sizeOf v) v w (Nat.le_refl _) hkr (parseJson_wf hs)
  simp [hcv]

/-- Witness for C9: two texts with different whitespace and reversed
key order normalize to the same canonical string. -/
theorem normalize_insensitive_to_reformatting_witness :
    parseJson "\x7b\"b\":1, \"a\": 2\x7d" =
      some (.obj [("b", .num 1), ("a", .num 2)]) ∧
    parseJson "\x7b \"a\" : 2,   \"b\" : 1 \x7d" =
      some (.obj [("a", .num 2), ("b", .num 1)]) ∧
    Result.Normalize (some "\x7b\"b\":1, \"a\": 2\x7d") =
      Result.Normalize (some "\x7b \"a\" : 2,   \"b\" : 1 \x7d") ∧
    Result.Normalize (some "\x7b\"b\":1, \"a\": 2\x7d") = some "\x7b\"a\":2,\"b\":1\x7d" :=
  ⟨rfl, rfl,
   normalize_insensitive_to_reformatting.2.2 _ _ _ _ rfl rfl
     (KeyReorder.obj
       (KeyReorderFields.cons (KeyReorder.num 1)
         (KeyReorderFields.cons (KeyReorder.num 2) KeyReorderFields.nil))
       (List.Perm.swap ("a", Json.num 2) ("b", Json.num 1) [])),
   rfl⟩

/-- Claim C3: when a test's chain (or the test itself) consumes a
reference created by a stateful-creator method, `BuildRequestChain`
is the sorted duplicate-free union of the stored chain with the whole
cumulative state-dependency set (in particular a superset of it);
otherwise it returns the stored chain exactly. -/
theorem listContains_iff {l : List String} {a : String} :
    l.contains a = true ↔ a ∈ l := List.elem_iff

theorem requestChain_stateful_union :
    ∀ (tests : List TestCase) (dt : DependencyTracker) (i : Nat) (c : List Nat),
    runTracker tests = .ok dt → assocFind i dt.depChains = some c →
    ((∃ r, CreatedByStatefulCreator tests r ∧
        (r ∈ refsOfTest (testAt tests i) ∨
          ∃ j ∈ c, r ∈ refsOfTest (testAt tests j))) →
      (∀ x ∈ dt.stateDependencies, x ∈ BuildRequestChain dt i tests) ∧
      (∀ x, x ∈ BuildRequestChain dt i tests ↔
        x ∈ c ∨ x ∈ dt.stateDependencies) ∧
      (BuildRequestChain dt i tests).Sorted (· < ·) ∧
      (BuildRequestChain dt i tests).Nodup) ∧
    ((¬ ∃ r, CreatedByStatefulCreator tests r ∧
        (r ∈ refsOfTest (testAt tests i) ∨
          ∃ j ∈ c, r ∈ refsOfTest (testAt tests j))) →
      BuildRequestChain dt i tests = c) := by
  intro tests dt i c hrun hc
  obtain ⟨_, _, inv3⟩ := runTracker_inv hrun
  have hmemstate : ∀ r, r ∈ dt.statefulRefs ↔ CreatedByStatefulCreator tests r := by
    intro r
    exact inv3 r
  have hcond : testUsesStatefulRefs dt i tests = true ↔
      ∃ r, CreatedByStatefulCreator tests r ∧
        (r ∈ refsOfTest (testAt tests i) ∨
          ∃ j ∈ c, r ∈ refsOfTest (testAt tests j)) := by
    unfold testUsesStatefulRefs
    rw [hc]
    simp only [Option.getD_some, Bool.or_eq_true, List.any_eq_true]
    constructor
    · rintro (⟨j, hj, r, hr, hcont⟩ | ⟨r, hr, hcont⟩)
      · exact ⟨r, (hmemstate r).1 (listContains_iff.1 hcont), .inr ⟨j, hj, hr⟩⟩
      · exact ⟨r, (hmemstate r).1 (listContains_iff.1 hcont), .inl hr⟩
    · rintro ⟨r, hcr, hself | ⟨j, hj, hr⟩⟩
      · exact .inr ⟨r, hself, listContains_iff.2 ((hmemstate r).2 hcr)⟩
      · exact .inl ⟨j, hj, r, hr, listContains_iff.2 ((hmemstate r).2 hcr)⟩
  constructor
  · intro hex
    have ht : testUsesStatefulRefs dt i tests = true := hcond.2 hex
    unfold BuildRequestChain
    rw [ht, hc]
    simp only [Option.getD_some, if_true]
    refine ⟨?_, ?_, sorted_mergeSortedUnique _, nodup_mergeSortedUnique _⟩
    · intro x hx
      rw [mem_mergeSortedUnique]
      exact ⟨dt.stateDependencies,
        List.mem_cons_of_mem _ (List.mem_cons_self _ _), hx⟩
    · intro x
      rw [mem_mergeSortedUnique]
      constructor
      · rintro ⟨l, hl, hx⟩
        rcases List.mem_cons.1 hl with rfl | hl
        · exact .inl hx
        · rcases List.mem_singleton.1 hl with rfl
          exact .inr hx
      · rintro (hx | hx)
        · exact ⟨c, List.mem_cons_self _ _, hx⟩
        · exact ⟨dt.stateDependencies,
            List.mem_cons_of_mem _ (List.mem_cons_self _ _), hx⟩
  · intro hnex
    have ht : testUsesStatefulRefs dt i tests = false := by
      cases h : testUsesStatefulRefs dt i tests
      · rfl
      · exact absurd (hcond.1 h) hnex
    unfold BuildRequestChain
    rw [ht, hc]
    simp

/-- Witness for C3: in scenario C, test 5 consumes the stateful
`$chainman`, so its request chain is the union of its stored chain
`[0, 1]` with the cumulative state-dependency set. -/
theorem requestChain_stateful_union_witness :
    (runTracker scenarioCTests = .ok scenarioCTracker) ∧
    (assocFind 5 scenarioCTracker.depChains = some [0, 1]) ∧
    ((∀ x ∈ scenarioCTracker.stateDependencies,
        x ∈ BuildRequestChain scenarioCTracker 5 scenarioCTests) ∧
      (∀ x, x ∈ BuildRequestChain scenarioCTracker 5 scenarioCTests ↔
        x ∈ [0, 1] ∨ x ∈ scenarioCTracker.stateDependencies) ∧
      (BuildRequestChain scenarioCTracker 5 scenarioCTests).Sorted (· < ·) ∧
      (BuildRequestChain scenarioCTracker 5 scenarioCTests).Nodup) :=
  ⟨rfl, rfl,
   (requestChain_stateful_union scenarioCTests scenarioCTracker 5 [0, 1]
      rfl rfl).1
     ⟨"$chainman", ⟨1, by decide, by decide, by decide, by decide⟩,
       .inl (by decide)⟩⟩

